import Mathlib

/-!
Shallow embedding of the wyvern-mc-rewrite core, for checking the
specification claims C1 to C10 against the source.

Sources embedded below:
* crates/wyvern-core/src/dimension/chunk.rs  (Chunk, ChunkSection)
* crates/wyvern-mc/src/dimension/mod.rs      (DimensionData actor methods)
* crates/wyvern-core/src/server/mod.rs       (ServerData::new_entity_id)
* crates/wyvern-mc/src/player/chunkload.rs   (ConnectionData::send_chunks)
* crates/wyvern-mc/src/player/stages/play.rs (AcceptTeleportation and
  MovePlayerPos handlers)

Machine integers are modelled as Int or Nat with explicit two's-complement
wrapping where a Rust cast occurs.  Fallible paths (a Rust unwrap that can
panic) are modelled with Option: a none result marks the panic.
-/

/-- Two's-complement wrap of an integer into the i32 range,
modelling Rust release-mode i32 arithmetic and `as i32` casts. -/
def wrapI32 (x : Int) : Int := (x + 2 ^ 31) % 2 ^ 32 - 2 ^ 31

/-- Rust cast `i32 as u32`: two's-complement reinterpretation. -/
def u32ofI32 (x : Int) : Nat := (x % 2 ^ 32).toNat

/-- Rust cast `i32 as usize` on a 64-bit target: sign-extend, then
reinterpret as an unsigned 64-bit value. -/
def usizeOfI32 (x : Int) : Nat := (x % 2 ^ 64).toNat

/-- Rust cast `i32 as i16` (used by IVec3::as_i16vec3): truncating wrap. -/
def i16ofI32 (x : Int) : Int := (x + 2 ^ 15) % 2 ^ 16 - 2 ^ 15

/-- Rust cast `u32 as i32`: two's-complement reinterpretation. -/
def i32ofU32 (n : Nat) : Int := wrapI32 (n : Int)

/-- Association-list insert with replacement, modelling HashMap::insert. -/
def alInsert {κ α : Type} [DecidableEq κ] (k : κ) (v : α)
    (l : List (κ × α)) : List (κ × α) :=
  (k, v) :: l.filter (fun e => !(e.1 == k))

/-- Association-list removal, modelling HashMap::remove. -/
def alRemove {κ α : Type} [DecidableEq κ] (k : κ)
    (l : List (κ × α)) : List (κ × α) :=
  l.filter (fun e => !(e.1 == k))

/-- Floor integer square root, modelling i32::isqrt on a non-negative
argument.  (Defined by a fold so that the kernel can evaluate it;
Nat.sqrt does not reduce definitionally.) -/
def isqrt (n : Nat) : Nat :=
  (List.range (n + 1)).foldl (fun acc k => if k * k ≤ n then k else acc) 0

/-- Floor of q / 16 for a rational q, computed on the numerator and
denominator so that the kernel can evaluate it.  This models the source
expression f64::floor(x / 16.0) as i32: division of an f64 coordinate by
the power of two 16.0 and the floor are exact for every coordinate of
magnitude below 2^51, so the rational computation agrees with the f64 one
on all physically meaningful positions. -/
def ratFloor16 (q : ℚ) : Int := Int.fdiv q.num (16 * (q.den : Int))

/-- Error taxonomy returned by every actor method.  Modelled from the
spec: the actors module itself is not under src/, but its error type is
named by §4.B and used throughout the sources that are. -/
inductive ActorError : Type where
  | ActorDoesNotExist : ActorError
  | ActorIsNotLoaded : ActorError
  | BadRequest : ActorError
  | IndexOutOfBounds : ActorError
deriving DecidableEq

/-- Opaque NBT payload attached as block custom data.  The core never
inspects it, so any type with decidable equality is a faithful model. -/
abbrev Nbt : Type := Nat

/-- Modelled from the spec: the blocks module (BlockState) is not under
src/.  §3 describes a BlockState as a block name (namespaced key, kept
here as one string) plus a component map; the properties components
determine the protocol ID together with the name, the CUSTOM_DATA
component is persisted separately by the chunk store, and all other
components are not persisted.  The three groups are kept as three
fields. -/
structure BlockState : Type where
  name : String
  properties : List (String × String)
  custom_data : Option Nbt
  extra_components : List (String × Nat)
deriving DecidableEq

/-- The global block-state registry: entry i holds the (name, properties)
pair whose protocol ID is i. -/
abbrev BlockRegistry : Type := List (String × List (String × String))

/-- The (name, properties) pair of a block state: the part of the state
that the registry maps to a protocol ID. -/
def BlockState.base (b : BlockState) : String × List (String × String) :=
  (b.name, b.properties)

/-- Index of a (name, properties) pair in the registry. -/
def regIndexOf (base : String × List (String × String)) :
    BlockRegistry → Option Nat
  | [] => none
  | e :: rest =>
    if e = base then some 0 else (regIndexOf base rest).map (· + 1)

/-- Modelled from the spec: BlockState::protocol_id resolves the name and
properties through the registry; an unregistered state yields the invalid
marker -1 (the source tests validity with id_is_valid). -/
def BlockState.protocol_id (reg : BlockRegistry) (b : BlockState) : Int :=
  match regIndexOf b.base reg with
  | some n => (n : Int)
  | none => -1

/-- Modelled from the spec: BlockState::from_protocol_id builds the state
registered under the given global palette ID, with an empty component
map; ID 0 is the all-air default. -/
def BlockState.from_protocol_id (reg : BlockRegistry) (id : Nat) :
    BlockState :=
  match reg.get? id with
  | some e => ⟨e.1, e.2, none, []⟩
  | none => ⟨"minecraft:air", [], none, []⟩

/-- Equality of block states ignoring non-persisted component deltas:
same name, same properties, same CUSTOM_DATA. -/
def persistEq (a b : BlockState) : Prop :=
  a.name = b.name ∧ a.properties = b.properties ∧
    a.custom_data = b.custom_data

instance (a b : BlockState) : Decidable (persistEq a b) := by
  unfold persistEq; infer_instance

/-- ChunkSection (chunk.rs lines 95-100): non-air counter, the bit-packed
block array, and the per-position custom-data map.  The RawDataArray has
4096 cells of 15 bits; 15 bits address the entire global block palette,
so each cell stores a block-state ID exactly and the array is modelled as
a plain list.  The i16 block_count is modelled as Int: the invariant
proved for C2 keeps it within 0..4096, far inside the i16 range, so
release-mode wrapping never occurs on reachable sections. -/
structure ChunkSection : Type where
  block_count : Int
  blocks : List Nat
  block_meta : List ((Nat × Nat × Nat) × Nbt)
deriving DecidableEq

/-- ChunkSection::index_from_pos: y * 256 + z * 16 + x. -/
def ChunkSection.index_from_pos (pos : Nat × Nat × Nat) : Nat :=
  pos.2.1 * 256 + pos.2.2 * 16 + pos.1

/-- ChunkSection::empty: 4096 zero entries, zero count, no metadata. -/
def ChunkSection.empty : ChunkSection :=
  ⟨0, List.replicate 4096 0, []⟩

/-- ChunkSection::set_block_at.  The read of the old value is
self.blocks.get(idx).unwrap(): none models that panic.  The new ID is
RegEntry::new_unchecked(block.protocol_id() as u32).id(), the count is
adjusted on zero/non-zero transitions, the ID is stored, and the
CUSTOM_DATA component, when present, is inserted into block_meta
(otherwise the map is left untouched). -/
def ChunkSection.set_block_at (reg : BlockRegistry) (s : ChunkSection)
    (pos : Nat × Nat × Nat) (block : BlockState) : Option ChunkSection :=
  let idx := ChunkSection.index_from_pos pos
  match s.blocks.get? idx with
  | none => none
  | some old_block =>
    let new_block := u32ofI32 (block.protocol_id reg)
    let count :=
      if old_block = 0 ∧ new_block ≠ 0 then s.block_count + 1
      else if old_block ≠ 0 ∧ new_block = 0 then s.block_count - 1
      else s.block_count
    some
      { block_count := count
        blocks := s.blocks.set idx new_block
        block_meta :=
          match block.custom_data with
          | some data => (pos, data) :: s.block_meta
          | none => s.block_meta }

/-- ChunkSection::set_block_at_by_id: as set_block_at but with the raw
u32 ID and no metadata update. -/
def ChunkSection.set_block_at_by_id (s : ChunkSection)
    (pos : Nat × Nat × Nat) (new_block : Nat) : Option ChunkSection :=
  let idx := ChunkSection.index_from_pos pos
  match s.blocks.get? idx with
  | none => none
  | some old_block =>
    let count :=
      if old_block = 0 ∧ new_block ≠ 0 then s.block_count + 1
      else if old_block ≠ 0 ∧ new_block = 0 then s.block_count - 1
      else s.block_count
    some { s with block_count := count, blocks := s.blocks.set idx new_block }

/-- ChunkSection::get_block_at: read the stored ID (unwrap: none models
the panic), rebuild the state from the global palette, and re-attach the
per-position custom data when present. -/
def ChunkSection.get_block_at (reg : BlockRegistry) (s : ChunkSection)
    (pos : Nat × Nat × Nat) : Option BlockState :=
  match s.blocks.get? (ChunkSection.index_from_pos pos) with
  | none => none
  | some ptc =>
    let state := BlockState.from_protocol_id reg ptc
    some
      (match s.block_meta.lookup pos with
       | some cdata => { state with custom_data := some cdata }
       | none => state)

/-- Chunk (chunk.rs lines 25-31): section range, the sections, and the
block-entity map keyed by i16 position. -/
structure Chunk : Type where
  min_sections : Int
  max_sections : Int
  sections : List ChunkSection
  block_entities : List ((Int × Int × Int) × Int)

/-- Chunk::new: max_sections - min_sections empty sections.  (A negative
total would make the Rust 0..total loop empty; toNat matches that.) -/
def Chunk.new (min_sections max_sections : Int) : Chunk :=
  ⟨min_sections, max_sections,
    List.replicate (max_sections - min_sections).toNat ChunkSection.empty, []⟩

/-- Chunk::section_at_mut: index (section - min_sections) cast to usize.
A negative difference wraps to at least 2^63, which exceeds any real
vector length, so the lookup yields none exactly when the difference is
negative or beyond the section count. -/
def Chunk.section_index (c : Chunk) (sec : Int) : Option Nat :=
  let i := sec - c.min_sections
  if 0 ≤ i ∧ i.toNat < c.sections.length then some i.toNat else none

/-- The section at a signed section coordinate, when in range. -/
def Chunk.section_at (c : Chunk) (sec : Int) : Option ChunkSection :=
  (c.section_index sec).bind (fun i => c.sections.get? i)

/-- Chunk::set_block_at: split y by Euclidean division into section and
local y; if the section exists, write the block into it at
(x, local_y, z) cast to usize, then insert or remove the block-entity
registry entry for the block name at the i16-truncated position; if the
section does not exist the chunk is left unchanged.  The inner none
models the panic inside ChunkSection::set_block_at (reachable when x or
z is negative, because the usize cast wraps). -/
def Chunk.set_block_at (reg : BlockRegistry) (beReg : String → Option Int)
    (c : Chunk) (pos : Int × Int × Int) (block : BlockState) :
    Option Chunk :=
  let section_y := pos.2.1.ediv 16
  let local_y := pos.2.1.emod 16
  match c.section_index section_y with
  | none => some c
  | some i =>
    match c.sections.get? i with
    | none => some c
    | some sec =>
      match
        sec.set_block_at reg
          (usizeOfI32 pos.1, local_y.toNat, usizeOfI32 pos.2.2) block with
      | none => none
      | some sec2 =>
        let key := (i16ofI32 pos.1, i16ofI32 pos.2.1, i16ofI32 pos.2.2)
        let bes :=
          match beReg block.name with
          | some id => alInsert key id c.block_entities
          | none => alRemove key c.block_entities
        some { c with sections := c.sections.set i sec2, block_entities := bes }

/-- Chunk::get_block_at: mirror of set; a missing section yields the
all-air default BlockState::from_protocol_id(0). -/
def Chunk.get_block_at (reg : BlockRegistry) (c : Chunk)
    (pos : Int × Int × Int) : Option BlockState :=
  let section_y := pos.2.1.ediv 16
  let local_y := pos.2.1.emod 16
  match c.section_at section_y with
  | none => some (BlockState.from_protocol_id reg 0)
  | some sec =>
    sec.get_block_at reg (usizeOfI32 pos.1, local_y.toNat, usizeOfI32 pos.2.2)

theorem regIndexOf_get {base : String × List (String × String)}
    {reg : BlockRegistry} {n : Nat} (h : regIndexOf base reg = some n) :
    reg.get? n = some base := by
  induction reg generalizing n with
  | nil => simp [regIndexOf] at h
  | cons e rest ih =>
    by_cases he : e = base
    · simp [regIndexOf, he] at h
      subst h
      simp [he]
    · simp [regIndexOf, he] at h
      obtain ⟨m, hm, rfl⟩ := h
      simpa using ih hm

/-- Dimension-type registry entry consumed by the core (§6): min_y and a
u32 height. -/
structure DimInfo : Type where
  min_y : Int
  height : Nat
deriving DecidableEq

/-- EntityData record owned by a dimension (mod.rs): type key, UUID,
numeric ID, position, heading.  UUIDs are opaque 128-bit values; Nat is a
faithful carrier.  The EntityMetadata blob is never inspected by the
embedded operations and is omitted. -/
structure EntityData : Type where
  entity_type : String
  uuid : Nat
  id : Int
  position : ℚ × ℚ × ℚ
  heading : ℚ × ℚ
deriving DecidableEq

/-- DimensionData (mod.rs lines 33-42): the chunk grid, the entity table,
the dimension-type key and the chunk generator.  The name and the mailbox
sender are not observable by any claim and are omitted; the weak server
handle always upgrades while the server lives (DimensionData::new stores
it), which the embedding assumes. -/
structure DimensionState : Type where
  chunks : List ((Int × Int) × Chunk)
  entities : List (Nat × EntityData)
  dim_type : String
  chunk_generator : Chunk → Int → Int → Chunk

/-- DimensionData::try_initialize_chunk: if the chunk is absent, resolve
the dimension type from the registries (the unwrap on that lookup is the
none case), derive the section range with Rust truncating division by
16, build an empty chunk, run the generator, and insert.  The
ChunkLoadEvent dispatch is a scheduled side effect with no bearing on
the dimension state and is omitted.  Note there is no bounds check of
any kind: every requested coordinate is initialized. -/
def DimensionState.try_initialize_chunk (dimReg : String → Option DimInfo)
    (d : DimensionState) (pos : Int × Int) : Option DimensionState :=
  if (d.chunks.lookup pos).isSome then some d
  else
    match dimReg d.dim_type with
    | none => none
    | some info =>
      let min_sections := info.min_y.tdiv 16
      let max_sections := (info.min_y + i32ofU32 info.height).tdiv 16
      let chunk := d.chunk_generator (Chunk.new min_sections max_sections)
        pos.1 pos.2
      some { d with chunks := alInsert pos chunk d.chunks }

/-- DimensionData::set_block: chunk coordinates by Rust truncating
division x / 16 and z / 16, local coordinates by Rust remainder x % 16
and z % 16 with the world y kept; initialize the chunk, write through
Chunk::set_block_at, and store the modified chunk back.  The broadcast of
BlockUpdate packets is a spawned task that does not touch the dimension
state and is omitted.  A none first component models a panic; the second
component is the dimension state at that point (the chunk insertion
performed by lazy initialization persists even when the write then
panics, because the actor state is mutated in place). -/
def DimensionState.set_block (reg : BlockRegistry)
    (beReg : String → Option Int) (dimReg : String → Option DimInfo)
    (d : DimensionState) (pos : Int × Int × Int) (block : BlockState) :
    Option Unit × DimensionState :=
  let chunk_pos := (pos.1.tdiv 16, pos.2.2.tdiv 16)
  let pos_in_chunk := (pos.1.tmod 16, pos.2.1, pos.2.2.tmod 16)
  match d.try_initialize_chunk dimReg chunk_pos with
  | none => (none, d)
  | some d1 =>
    match d1.chunks.lookup chunk_pos with
    | none => (none, d1)
    | some chunk =>
      match chunk.set_block_at reg beReg pos_in_chunk block with
      | none => (none, d1)
      | some chunk2 =>
        (some (), { d1 with chunks := alInsert chunk_pos chunk2 d1.chunks })

/-- DimensionData::get_block: same coordinate split as set_block, then
Chunk::get_block_at on the initialized chunk. -/
def DimensionState.get_block (reg : BlockRegistry)
    (dimReg : String → Option DimInfo) (d : DimensionState)
    (pos : Int × Int × Int) : Option BlockState × DimensionState :=
  let chunk_pos := (pos.1.tdiv 16, pos.2.2.tdiv 16)
  let pos_in_chunk := (pos.1.tmod 16, pos.2.1, pos.2.2.tmod 16)
  match d.try_initialize_chunk dimReg chunk_pos with
  | none => (none, d)
  | some d1 =>
    match d1.chunks.lookup chunk_pos with
    | none => (none, d1)
    | some chunk =>
      (chunk.get_block_at reg pos_in_chunk, d1)

/-- DimensionData::get_chunk_section: the x and z of the argument are
used directly as the chunk coordinate (no division), the chunk is lazily
initialized, and the section at y / 16 (Rust truncating division) is
returned; the unwrap on section_at_mut is the none case.  The method
never returns an absent section as a value: its only non-section
outcomes are panics or actor errors. -/
def DimensionState.get_chunk_section (dimReg : String → Option DimInfo)
    (d : DimensionState) (pos : Int × Int × Int) :
    Option ChunkSection × DimensionState :=
  let chunk_pos := (pos.1, pos.2.2)
  match d.try_initialize_chunk dimReg chunk_pos with
  | none => (none, d)
  | some d1 =>
    match d1.chunks.lookup chunk_pos with
    | none => (none, d1)
    | some chunk =>
      (chunk.section_at (pos.2.1.tdiv 16), d1)

/-- DimensionData::teleport_entity: update the record if the UUID is
present; an absent UUID falls through to Ok(()) with no error and no
table change.  The position-sync broadcast is a spawned task and is
omitted. -/
def DimensionState.teleport_entity (d : DimensionState) (uuid : Nat)
    (position : ℚ × ℚ × ℚ) : Except ActorError Unit × DimensionState :=
  match d.entities.lookup uuid with
  | some e =>
    (Except.ok (),
      { d with entities := alInsert uuid { e with position := position } d.entities })
  | none => (Except.ok (), d)

/-- DimensionData::rotate_entity: as teleport_entity but for the
heading. -/
def DimensionState.rotate_entity (d : DimensionState) (uuid : Nat)
    (heading : ℚ × ℚ) : Except ActorError Unit × DimensionState :=
  match d.entities.lookup uuid with
  | some e =>
    (Except.ok (),
      { d with entities := alInsert uuid { e with heading := heading } d.entities })
  | none => (Except.ok (), d)

/-- DimensionData::remove_entity: remove the record; when one was
present, broadcast its removal (a spawned task, omitted).  An absent UUID
skips everything and returns Ok(()).  The ok_or on the server handle
cannot fire while the server lives (DimensionData::new stores it). -/
def DimensionState.remove_entity (d : DimensionState) (uuid : Nat) :
    Except ActorError Unit × DimensionState :=
  match d.entities.lookup uuid with
  | none => (Except.ok (), d)
  | some _ => (Except.ok (), { d with entities := alRemove uuid d.entities })

/-- ServerData, restricted to the field the claims observe: the monotone
entity-ID counter (an i32, initially 0). -/
structure ServerData : Type where
  last_entity_id : Int
deriving DecidableEq

/-- ServerData::new_entity_id: increment and return.  The increment is
i32 arithmetic, hence the wrap. -/
def ServerData.new_entity_id (sv : ServerData) : Int × ServerData :=
  let v := wrapI32 (sv.last_entity_id + 1)
  (v, ⟨v⟩)

/-- The Uuid::new_v4 retry loop of spawn_entity: draw candidates from the
entropy stream gen until one is not in the table.  The loop has no bound
in the source; fuel makes the embedding total, with none standing for a
non-terminating loop (only reachable when the stream keeps colliding). -/
def freshUuid (gen : Nat → Nat) (taken : List Nat) :
    Nat → Nat → Option Nat
  | _, 0 => none
  | i, fuel + 1 =>
    let u := gen i
    if taken.contains u then freshUuid gen taken (i + 1) fuel else some u

/-- DimensionData::spawn_entity: pick a UUID not already in this
dimension's table (the retry loop, fed by the entropy stream gen),
obtain a fresh numeric ID from the server, insert a record at the
origin, and return the UUID and ID.  The AddEntity broadcast is a
spawned task and is omitted. -/
def DimensionState.spawn_entity (gen : Nat → Nat) (fuel : Nat)
    (entity_type : String) (d : DimensionState) (sv : ServerData) :
    Option ((Nat × Int) × DimensionState × ServerData) :=
  match freshUuid gen (d.entities.map Prod.fst) 0 fuel with
  | none => none
  | some uuid =>
    let (id, sv2) := sv.new_entity_id
    let rec_ : EntityData :=
      ⟨entity_type, uuid, id, ((0 : ℚ), (0 : ℚ), (0 : ℚ)), ((0 : ℚ), (0 : ℚ))⟩
    some ((uuid, id), { d with entities := alInsert uuid rec_ d.entities }, sv2)

/-- Events observable in the connection-local model: the PlayerMoveEvent
dispatched by the movement handlers, with its payload. -/
inductive PlayEvent : Type where
  | playerMove (position : ℚ × ℚ × ℚ) (direction : ℚ × ℚ) : PlayEvent
deriving DecidableEq

/-- Connection-local state, restricted to what the embedded handlers
read or write: the POSITION and DIRECTION player components (Option,
since a component may be unset; the source reads them with get), the two
teleport-sync counters, associated_data.last_position and
last_chunk_position, the loaded-chunk list, the render distance, whether
associated_data.dimension is set, whether the weak self-sender still
upgrades, and the list of events dispatched so far (in dispatch
order). -/
structure ConnState : Type where
  position : Option (ℚ × ℚ × ℚ)
  direction : Option (ℚ × ℚ)
  teleport_sync_sent : Option Int
  teleport_sync_received : Option Int
  last_position : ℚ × ℚ × ℚ
  last_chunk_position : Int × Int
  loaded_chunks : List (Int × Int)
  render_distance : Int
  has_dimension : Bool
  sender_alive : Bool
  events : List PlayEvent

/-- The chunk center recomputed by send_chunks from
associated_data.last_position: floor of x / 16 and z / 16. -/
def connCenter (s : ConnState) : Int × Int :=
  (ratFloor16 s.last_position.1, ratFloor16 s.last_position.2.2)

/-- The effective radius used by send_chunks:
render_distance / 2 + 2 (Rust truncating division). -/
def connRd (s : ConnState) : Int := s.render_distance.tdiv 2 + 2

/-- The retain filter of send_chunks: both axes within the closed
interval of half-side rd around the center. -/
def inWindowB (c : Int × Int) (rd : Int) (p : Int × Int) : Bool :=
  decide (c.1 - rd ≤ p.1) && decide (p.1 ≤ c.1 + rd) &&
    decide (c.2 - rd ≤ p.2) && decide (p.2 ≤ c.2 + rd)

/-- The integers lo, lo + 1, ..., lo + n - 1: the Rust range
lo..lo + n. -/
def intRange (lo : Int) : Nat → List Int
  | 0 => []
  | n + 1 => lo :: intRange (lo + 1) n

/-- The candidate enumeration of send_chunks: chunk_x in
cx - rd .. cx + rd (exclusive upper bound), inner loop chunk_z likewise,
in that order. -/
def chunkWindow (c : Int × Int) (rd : Int) : List (Int × Int) :=
  (intRange (c.1 - rd) (2 * rd).toNat).flatMap
    (fun x => (intRange (c.2 - rd) (2 * rd).toNat).map (fun z => (x, z)))

/-- The sort key of send_chunks: i32::isqrt of the squared Euclidean
distance to the center. -/
def distKey (c p : Int × Int) : Nat :=
  isqrt ((p.1 - c.1) * (p.1 - c.1) + (p.2 - c.2) * (p.2 - c.2)).toNat

/-- The comparator passed to sort_by, as a relation: key less-or-equal. -/
def sortKeyRel (c : Int × Int) (a b : Int × Int) : Prop :=
  distKey c a ≤ distKey c b

instance (c : Int × Int) : DecidableRel (sortKeyRel c) := fun a b =>
  inferInstanceAs (Decidable (distKey c a ≤ distKey c b))

instance (c : Int × Int) : IsTotal (Int × Int) (sortKeyRel c) :=
  ⟨fun a b => Nat.le_total (distKey c a) (distKey c b)⟩

instance (c : Int × Int) : IsTrans (Int × Int) (sortKeyRel c) :=
  ⟨fun _ _ _ hab hbc => Nat.le_trans hab hbc⟩

/-- The loaded_chunks list after the retain step of send_chunks. -/
def prunedLoaded (s : ConnState) : List (Int × Int) :=
  s.loaded_chunks.filter (inWindowB (connCenter s) (connRd s))

/-- The not-yet-loaded chunks of the window, in enumeration order. -/
def connCandidates (s : ConnState) : List (Int × Int) :=
  (chunkWindow (connCenter s) (connRd s)).filter
    (fun p => !((prunedLoaded s).contains p))

/-- The chunk chosen by one send_chunks call: the head of the candidate
list sorted by distKey.  Rust slice::sort_by is a stable sort and a
stable sort's output is uniquely determined by the comparator and the
input order, so the stable insertionSort is the same function. -/
def sendChunksPick (s : ConnState) : Option (Int × Int) :=
  (List.insertionSort (sortKeyRel (connCenter s)) (connCandidates s)).head?

/-- ConnectionData::send_chunks: bail out when no dimension is set;
record the recomputed chunk center, retain only loaded chunks inside the
window, and when a nearest-by-key candidate exists, append it to
loaded_chunks (the mark-as-loaded happens before the spawned task that
fetches the sections and writes the four packets; that task performs no
connection-state mutation and is omitted). -/
def send_chunks (s : ConnState) : ConnState :=
  if !s.has_dimension then s
  else
    let s1 := { s with
      last_chunk_position := connCenter s
      loaded_chunks := prunedLoaded s }
    match sendChunksPick s with
    | none => s1
    | some pos => { s1 with loaded_chunks := prunedLoaded s ++ [pos] }

/-- The C2SPlayPackets::AcceptTeleportation handler (play.rs lines
127-138): teleport ID 0 triggers the new-dimension join flow (a blocking
interaction with the event bus and the server, outside this model:
none); any other ID except -1 is stored into TELEPORT_SYNC_RECEIVED;
then send_chunks runs. -/
def handleAcceptTeleportation (s : ConnState) (teleport_id : Int) :
    Option ConnState :=
  if teleport_id = 0 then none
  else
    let s1 :=
      if teleport_id ≠ -1 then
        { s with teleport_sync_received := some teleport_id }
      else s
    some (send_chunks s1)

/-- The C2SPlayPackets::MovePlayerPos handler (play.rs lines 139-163):
drop the packet when TELEPORT_SYNC_SENT (default 0) exceeds
TELEPORT_SYNC_RECEIVED (default 1); otherwise store the packet
coordinates into POSITION, run send_chunks, and, when the self-sender
still upgrades, dispatch PlayerMoveEvent with the freshly read POSITION
and DIRECTION components — if either component read fails the handler
errors out there, after the mutations already made.  The trailing
update_self_entity call only messages the dimension actor and does not
touch this state. -/
def handleMovePlayerPos (s : ConnState) (x y z : ℚ) : ConnState :=
  if s.teleport_sync_sent.getD 0 > s.teleport_sync_received.getD 1 then s
  else
    let s1 := { s with position := some (x, y, z) }
    let s2 := send_chunks s1
    if s2.sender_alive then
      match s2.position, s2.direction with
      | some p, some dir =>
        { s2 with events := s2.events ++ [PlayEvent.playerMove p dir] }
      | _, _ => s2
    else s2

set_option maxRecDepth 10000

/-- Concrete block registry used by witnesses: entry 0 is the air
default. -/
def reg0 : BlockRegistry :=
  [("minecraft:air", []), ("minecraft:stone", []), ("minecraft:dirt", []),
    ("minecraft:grass_block", [("snowy", "false")])]

/-- Concrete block-entity registry used by witnesses: no block of reg0
carries a block entity. -/
def beReg0 : String → Option Int := fun _ => none

/-- Concrete dimension-type registry used by witnesses: one type of one
section. -/
def dimReg0 : String → Option DimInfo :=
  fun t => if t = "minecraft:overworld" then some ⟨0, 16⟩ else none

/-- A freshly created dimension of that type with the default no-op
generator. -/
def d0 : DimensionState := ⟨[], [], "minecraft:overworld", fun c _ _ => c⟩

/-- A stone block state carrying a CUSTOM_DATA component. -/
def stoneCD : BlockState := ⟨"minecraft:stone", [], some 7, []⟩

/-- A dirt block state with no components. -/
def dirtPlain : BlockState := ⟨"minecraft:dirt", [], none, []⟩

/-- Sections reachable from ChunkSection::empty by set_block_at and
set_block_at_by_id calls at in-range local positions. -/
inductive ReachableSection (reg : BlockRegistry) : ChunkSection → Prop where
  | empty : ReachableSection reg ChunkSection.empty
  | set : ∀ (s : ChunkSection) (pos : Nat × Nat × Nat) (block : BlockState)
      (s2 : ChunkSection), ReachableSection reg s →
      pos.1 < 16 → pos.2.1 < 16 → pos.2.2 < 16 →
      s.set_block_at reg pos block = some s2 → ReachableSection reg s2
  | setById : ∀ (s : ChunkSection) (pos : Nat × Nat × Nat) (id : Nat)
      (s2 : ChunkSection), ReachableSection reg s →
      pos.1 < 16 → pos.2.1 < 16 → pos.2.2 < 16 →
      s.set_block_at_by_id pos id = some s2 → ReachableSection reg s2

theorem index_from_pos_lt (pos : Nat × Nat × Nat) (hx : pos.1 < 16)
    (hy : pos.2.1 < 16) (hz : pos.2.2 < 16) :
    ChunkSection.index_from_pos pos < 4096 := by
  unfold ChunkSection.index_from_pos
  omega

theorem countP_set_int (p : Nat → Bool) (l : List Nat) (i : Nat) (a : Nat)
    (h : i < l.length) :
    (List.countP p (l.set i a) : Int) =
      (List.countP p l : Int) - (if p l[i] then 1 else 0) +
        (if p a then 1 else 0) := by
  have hc := List.countP_set p l i a h
  cases hp : p l[i] with
  | true =>
    have hpos : 0 < List.countP p l :=
      List.countP_pos_iff.mpr ⟨l[i], List.getElem_mem h, hp⟩
    cases hq : p a <;> simp [hp, hq] at hc ⊢ <;> omega
  | false =>
    cases hq : p a <;> simp [hp, hq] at hc ⊢ <;> omega

/-- C2: for every ChunkSection reachable from empty() by set_block_at and
set_block_at_by_id operations at in-range positions, the number of
non-zero entries of the 4096-entry block array equals the block_count
(non-air count) field. -/
theorem c2_non_air_count_invariant (reg : BlockRegistry) (s : ChunkSection)
    (h : ReachableSection reg s) :
    s.block_count = (s.blocks.countP (fun b => b != 0) : Int) ∧
      s.blocks.length = 4096 := by
  induction h with
  | empty =>
    have h0 : List.countP (fun b => b != 0) (List.replicate 4096 0) = 0 := by
      rw [List.countP_eq_zero]
      intro a ha
      rw [List.eq_of_mem_replicate ha]
      decide
    exact ⟨by rw [show ChunkSection.empty.blocks = List.replicate 4096 0 from rfl, h0]; rfl,
      by rw [show ChunkSection.empty.blocks = List.replicate 4096 0 from rfl, List.length_replicate]⟩
  | set s pos block s2 _ hx hy hz hset ih =>
    obtain ⟨ihc, ihl⟩ := ih
    have hidx : ChunkSection.index_from_pos pos < s.blocks.length := by
      rw [ihl]; exact index_from_pos_lt pos hx hy hz
    rcases hg : s.blocks.get? (ChunkSection.index_from_pos pos) with _ | old
    · rw [ChunkSection.set_block_at, hg] at hset; cases hset
    · rw [ChunkSection.set_block_at, hg] at hset
      have hold : s.blocks[ChunkSection.index_from_pos pos] = old := by
        rw [List.get?_eq_getElem?, List.getElem?_eq_getElem hidx] at hg
        exact Option.some_injective _ hg
      obtain rfl := Option.some_injective _ hset
      refine ⟨?_, by simpa using ihl⟩
      simp only
      rw [countP_set_int _ _ _ _ hidx, hold, ← ihc]
      by_cases h0 : old = 0 <;>
        by_cases h1 : u32ofI32 (block.protocol_id reg) = 0 <;>
          simp [h0, h1]
  | setById s pos id s2 _ hx hy hz hset ih =>
    obtain ⟨ihc, ihl⟩ := ih
    have hidx : ChunkSection.index_from_pos pos < s.blocks.length := by
      rw [ihl]; exact index_from_pos_lt pos hx hy hz
    rcases hg : s.blocks.get? (ChunkSection.index_from_pos pos) with _ | old
    · rw [ChunkSection.set_block_at_by_id, hg] at hset; cases hset
    · rw [ChunkSection.set_block_at_by_id, hg] at hset
      have hold : s.blocks[ChunkSection.index_from_pos pos] = old := by
        rw [List.get?_eq_getElem?, List.getElem?_eq_getElem hidx] at hg
        exact Option.some_injective _ hg
      obtain rfl := Option.some_injective _ hset
      refine ⟨?_, by simpa using ihl⟩
      simp only
      rw [countP_set_int _ _ _ _ hidx, hold, ← ihc]
      by_cases h0 : old = 0 <;> by_cases h1 : id = 0 <;> simp [h0, h1]

/-- C2 witness: the invariant instantiated on a concrete reachable
section (one write to the empty section). -/
theorem c2_non_air_count_invariant_witness :
    ∃ s2 : ChunkSection,
      ChunkSection.empty.set_block_at reg0 (3, 4, 5) stoneCD = some s2 ∧
        s2.block_count = (s2.blocks.countP (fun b => b != 0) : Int) := by
  rcases hs : ChunkSection.empty.set_block_at reg0 (3, 4, 5) stoneCD
    with _ | s2
  · exact absurd hs (by decide)
  · exact ⟨s2,
      rfl,
      (c2_non_air_count_invariant reg0 s2
        (ReachableSection.set ChunkSection.empty (3, 4, 5) stoneCD s2
          ReachableSection.empty (by decide) (by decide) (by decide) hs)).1⟩

theorem set_block_at_spec (reg : BlockRegistry) (s : ChunkSection)
    (pos : Nat × Nat × Nat) (block : BlockState)
    (hidx : ChunkSection.index_from_pos pos < s.blocks.length) :
    ∃ t : ChunkSection,
      s.set_block_at reg pos block = some t ∧
        t.blocks = s.blocks.set (ChunkSection.index_from_pos pos)
          (u32ofI32 (block.protocol_id reg)) ∧
        t.block_meta =
          (match block.custom_data with
           | some data => (pos, data) :: s.block_meta
           | none => s.block_meta) := by
  have hg : s.blocks.get? (ChunkSection.index_from_pos pos) =
      some s.blocks[ChunkSection.index_from_pos pos] := by
    rw [List.get?_eq_getElem?, List.getElem?_eq_getElem hidx]
  exact ⟨_, by rw [ChunkSection.set_block_at, hg], rfl, rfl⟩

theorem get_block_at_spec (reg : BlockRegistry) (s : ChunkSection)
    (pos : Nat × Nat × Nat)
    (hidx : ChunkSection.index_from_pos pos < s.blocks.length) :
    s.get_block_at reg pos =
      some
        (match s.block_meta.lookup pos with
         | some cdata =>
           { BlockState.from_protocol_id reg
               s.blocks[ChunkSection.index_from_pos pos] with
             custom_data := some cdata }
         | none =>
           BlockState.from_protocol_id reg
             s.blocks[ChunkSection.index_from_pos pos]) := by
  have hg : s.blocks.get? (ChunkSection.index_from_pos pos) =
      some s.blocks[ChunkSection.index_from_pos pos] := by
    rw [List.get?_eq_getElem?, List.getElem?_eq_getElem hidx]
  rw [ChunkSection.get_block_at, hg]

theorem u32ofI32_coe (n : Nat) (hn : (n : Int) < 2 ^ 32) :
    u32ofI32 (n : Int) = n := by
  unfold u32ofI32
  rw [Int.emod_eq_of_lt (by positivity) hn]
  simp

/-- C9: writing a state carrying CUSTOM_DATA and then overwriting the
same in-range position with a state carrying none leaves the stored
metadata in place, so a subsequent get_block_at returns the second
write's block ID with the first write's CUSTOM_DATA attached. -/
theorem c9_stale_custom_data (reg : BlockRegistry) (s : ChunkSection)
    (pos : Nat × Nat × Nat) (b1 b2 : BlockState) (d : Nbt)
    (hx : pos.1 < 16) (hy : pos.2.1 < 16) (hz : pos.2.2 < 16)
    (hlen : s.blocks.length = 4096)
    (h1 : b1.custom_data = some d) (h2 : b2.custom_data = none) :
    ∃ t1 t2 : ChunkSection,
      s.set_block_at reg pos b1 = some t1 ∧
        t1.set_block_at reg pos b2 = some t2 ∧
        t2.get_block_at reg pos =
          some
            { BlockState.from_protocol_id reg
                (u32ofI32 (b2.protocol_id reg)) with
              custom_data := some d } := by
  have hidx : ChunkSection.index_from_pos pos < s.blocks.length := by
    rw [hlen]; exact index_from_pos_lt pos hx hy hz
  obtain ⟨t1, e1, hb1, hm1⟩ := set_block_at_spec reg s pos b1 hidx
  have hm1c : t1.block_meta = (pos, d) :: s.block_meta := by rw [hm1, h1]
  have hidx1 : ChunkSection.index_from_pos pos < t1.blocks.length := by
    rw [hb1, List.length_set]; exact hidx
  obtain ⟨t2, e2, hb2, hm2⟩ := set_block_at_spec reg t1 pos b2 hidx1
  have hm2c : t2.block_meta = (pos, d) :: s.block_meta := by
    rw [hm2, h2, hm1c]
  have hidx2 : ChunkSection.index_from_pos pos < t2.blocks.length := by
    rw [hb2, List.length_set]; exact hidx1
  have hval : t2.blocks[ChunkSection.index_from_pos pos] =
      u32ofI32 (b2.protocol_id reg) := by
    have := List.getElem_set_self
      (l := t1.blocks) (i := ChunkSection.index_from_pos pos)
      (a := u32ofI32 (b2.protocol_id reg)) (hb2 ▸ hidx2)
    simp only [← hb2] at this
    exact this
  have hlook : t2.block_meta.lookup pos = some d := by
    rw [hm2c]; simp [List.lookup]
  refine ⟨t1, t2, e1, e2, ?_⟩
  rw [get_block_at_spec reg t2 pos hidx2, hlook, hval]

/-- C9 witness: the stale-metadata round trip on a concrete section. -/
theorem c9_stale_custom_data_witness :
    ∃ t1 t2 : ChunkSection,
      ChunkSection.empty.set_block_at reg0 (3, 4, 5) stoneCD = some t1 ∧
        t1.set_block_at reg0 (3, 4, 5) dirtPlain = some t2 ∧
        t2.get_block_at reg0 (3, 4, 5) =
          some
            { BlockState.from_protocol_id reg0
                (u32ofI32 (dirtPlain.protocol_id reg0)) with
              custom_data := some 7 } :=
  c9_stale_custom_data reg0 ChunkSection.empty (3, 4, 5) stoneCD dirtPlain 7
    (by decide) (by decide) (by decide) (List.length_replicate 4096 0)
    rfl rfl

/-- C1 counterexample: the round-trip law fails as universally stated.
On a section where position (3,4,5) earlier received a state with
CUSTOM_DATA 7, writing the registered state dirtPlain (which carries no
CUSTOM_DATA, and whose protocol ID is defined in reg0) and reading back
yields a state that still carries CUSTOM_DATA 7, hence is not equal to
dirtPlain even ignoring non-persisted component deltas. -/
theorem c1_counterexample :
    ((ChunkSection.empty.set_block_at reg0 (3, 4, 5) stoneCD).bind
        (fun t1 => t1.set_block_at reg0 (3, 4, 5) dirtPlain)).bind
      (fun t2 => t2.get_block_at reg0 (3, 4, 5)) =
        some ⟨("minecraft:dirt"), [], some 7, []⟩ ∧
      ¬ persistEq ⟨("minecraft:dirt"), [], some 7, []⟩ dirtPlain := by
  constructor
  · decide
  · decide

/-- C1 (amended): set followed by get returns the written state up to
non-persisted component deltas, for any in-range position and any state
whose protocol ID is defined, PROVIDED the written state carries a
CUSTOM_DATA component or the section holds no stale custom-data entry at
that position (C9 is the excluded case).  The bound on the registry index
reflects that protocol IDs are i32 values. -/
theorem c1_set_then_get_persisted (reg : BlockRegistry) (s : ChunkSection)
    (pos : Nat × Nat × Nat) (block : BlockState) (n : Nat)
    (hx : pos.1 < 16) (hy : pos.2.1 < 16) (hz : pos.2.2 < 16)
    (hlen : s.blocks.length = 4096)
    (hreg : regIndexOf block.base reg = some n) (hn : (n : Int) < 2 ^ 31)
    (hclean : block.custom_data.isSome ∨ s.block_meta.lookup pos = none) :
    ∃ t b, s.set_block_at reg pos block = some t ∧
      t.get_block_at reg pos = some b ∧ persistEq b block := by
  have hidx : ChunkSection.index_from_pos pos < s.blocks.length := by
    rw [hlen]; exact index_from_pos_lt pos hx hy hz
  have hpid : block.protocol_id reg = (n : Int) := by
    rw [BlockState.protocol_id, hreg]
  have hv : u32ofI32 (block.protocol_id reg) = n := by
    rw [hpid]; exact u32ofI32_coe n (hn.trans (by norm_num))
  have hfrom : BlockState.from_protocol_id reg n =
      ⟨block.name, block.properties, none, []⟩ := by
    rw [BlockState.from_protocol_id, regIndexOf_get hreg]; rfl
  obtain ⟨t, e1, hb, hm⟩ := set_block_at_spec reg s pos block hidx
  have hidxt : ChunkSection.index_from_pos pos < t.blocks.length := by
    rw [hb, List.length_set]; exact hidx
  have hval : t.blocks[ChunkSection.index_from_pos pos] = n := by
    have := List.getElem_set_self
      (l := s.blocks) (i := ChunkSection.index_from_pos pos)
      (a := u32ofI32 (block.protocol_id reg)) (hb ▸ hidxt)
    simp only [← hb] at this
    rw [this, hv]
  have hget := get_block_at_spec reg t pos hidxt
  rcases hcd : block.custom_data with _ | data
  · have hmeta : t.block_meta = s.block_meta := by rw [hm, hcd]
    have hlook : t.block_meta.lookup pos = none := by
      rw [hmeta]
      rcases hclean with hs | hs
      · rw [hcd] at hs; cases hs
      · exact hs
    refine ⟨t, ⟨block.name, block.properties, none, []⟩, e1, ?_, ?_⟩
    · rw [hget, hlook, hval, hfrom]
    · exact ⟨rfl, rfl, hcd.symm⟩
  · have hmeta : t.block_meta = (pos, data) :: s.block_meta := by
      rw [hm, hcd]
    have hlook : t.block_meta.lookup pos = some data := by
      rw [hmeta]; simp [List.lookup]
    refine ⟨t, ⟨block.name, block.properties, some data, []⟩, e1, ?_, ?_⟩
    · rw [hget, hlook, hval, hfrom]
    · exact ⟨rfl, rfl, hcd.symm⟩

/-- C1 witness: the amended round trip on a concrete clean section. -/
theorem c1_set_then_get_persisted_witness :
    ∃ t b, ChunkSection.empty.set_block_at reg0 (3, 4, 5) stoneCD = some t ∧
      t.get_block_at reg0 (3, 4, 5) = some b ∧ persistEq b stoneCD :=
  c1_set_then_get_persisted reg0 ChunkSection.empty (3, 4, 5) stoneCD 1
    (by decide) (by decide) (by decide) (List.length_replicate 4096 0)
    (by decide) (by decide) (Or.inl rfl)

/-- C7 counterexample: on a dimension whose entity table does not contain
UUID 99, teleport_entity, rotate_entity and remove_entity all return
Ok(()) — no bad-request (nor any other) error is surfaced to the
caller. -/
theorem c7_counterexample :
    d0.entities.lookup 99 = none ∧
      (d0.teleport_entity 99 ((1 : ℚ), (2 : ℚ), (3 : ℚ))).1 = Except.ok () ∧
      (d0.rotate_entity 99 ((0 : ℚ), (0 : ℚ))).1 = Except.ok () ∧
      (d0.remove_entity 99).1 = Except.ok () := by
  refine ⟨rfl, rfl, rfl, rfl⟩

/-- C7 (amended): for every UUID absent from the entity table,
teleport_entity, rotate_entity and remove_entity silently succeed — they
return Ok(()) rather than a bad-request error — and leave the dimension
state (in particular the entity table) unchanged. -/
theorem c7_unknown_uuid_silent_ok (d : DimensionState) (uuid : Nat)
    (pos : ℚ × ℚ × ℚ) (heading : ℚ × ℚ)
    (h : d.entities.lookup uuid = none) :
    d.teleport_entity uuid pos = (Except.ok (), d) ∧
      d.rotate_entity uuid heading = (Except.ok (), d) ∧
      d.remove_entity uuid = (Except.ok (), d) := by
  refine ⟨?_, ?_, ?_⟩
  · rw [DimensionState.teleport_entity, h]
  · rw [DimensionState.rotate_entity, h]
  · rw [DimensionState.remove_entity, h]

/-- C7 witness: the silent success on a concrete dimension and UUID. -/
theorem c7_unknown_uuid_silent_ok_witness :
    d0.teleport_entity 99 ((1 : ℚ), (2 : ℚ), (3 : ℚ)) = (Except.ok (), d0) ∧
      d0.rotate_entity 99 ((0 : ℚ), (0 : ℚ)) = (Except.ok (), d0) ∧
      d0.remove_entity 99 = (Except.ok (), d0) :=
  c7_unknown_uuid_silent_ok d0 99 ((1 : ℚ), (2 : ℚ), (3 : ℚ))
    ((0 : ℚ), (0 : ℚ)) rfl

theorem alInsert_lookup {κ α : Type} [BEq κ] [LawfulBEq κ] [DecidableEq κ]
    (k : κ) (v : α) (l : List (κ × α)) :
    (alInsert k v l).lookup k = some v := by
  simp [alInsert, List.lookup]

theorem lookup_mem {κ α : Type} [BEq κ] [LawfulBEq κ] {l : List (κ × α)}
    {k : κ} {v : α} (h : l.lookup k = some v) : (k, v) ∈ l := by
  induction l with
  | nil => simp [List.lookup] at h
  | cons e rest ih =>
    obtain ⟨a, b⟩ := e
    cases hb : k == a with
    | true =>
      have hk : k = a := eq_of_beq hb
      subst hk
      simp [List.lookup, hb] at h
      subst h
      exact List.mem_cons_self _ _
    | false =>
      simp [List.lookup, hb] at h
      exact List.mem_cons_of_mem _ (ih h)

/-- Structural well-formedness of a chunk of section range mn..mx: the
shape Chunk::new produces and every reachable mutation preserves. -/
def ChunkWF (c : Chunk) (mn mx : Int) : Prop :=
  c.min_sections = mn ∧ c.sections.length = (mx - mn).toNat ∧
    ∀ sec ∈ c.sections, sec.blocks.length = 4096

theorem chunk_new_WF (mn mx : Int) : ChunkWF (Chunk.new mn mx) mn mx := by
  refine ⟨rfl, by simp [Chunk.new], ?_⟩
  intro sec hsec
  have hs := List.eq_of_mem_replicate (show sec ∈ List.replicate (mx - mn).toNat ChunkSection.empty from hsec)
  rw [hs]
  exact List.length_replicate 4096 0

theorem try_initialize_chunk_spec (dimReg : String → Option DimInfo)
    (d : DimensionState) (pos : Int × Int) (info : DimInfo)
    (hinfo : dimReg d.dim_type = some info) :
    ∃ d1 c, d.try_initialize_chunk dimReg pos = some d1 ∧
      d1.chunks.lookup pos = some c ∧
      (d.chunks.lookup pos = some c ∨
        (d.chunks.lookup pos = none ∧
          c = d.chunk_generator
            (Chunk.new (info.min_y.tdiv 16)
              ((info.min_y + i32ofU32 info.height).tdiv 16))
            pos.1 pos.2)) := by
  rcases hl : d.chunks.lookup pos with _ | c0
  · have hrun : d.try_initialize_chunk dimReg pos =
        some (⟨alInsert pos
            (d.chunk_generator
              (Chunk.new (info.min_y.tdiv 16)
                ((info.min_y + i32ofU32 info.height).tdiv 16))
              pos.1 pos.2)
            d.chunks,
          d.entities, d.dim_type, d.chunk_generator⟩ : DimensionState) := by
      unfold DimensionState.try_initialize_chunk
      rw [hl]
      rw [if_neg (by simp)]
      rw [hinfo]
    exact ⟨_, _, hrun, alInsert_lookup _ _ _, Or.inr ⟨rfl, rfl⟩⟩
  · have hrun : d.try_initialize_chunk dimReg pos = some d := by
      unfold DimensionState.try_initialize_chunk
      rw [hl]
      rw [if_pos (by simp)]
    exact ⟨d, c0, hrun, hl, Or.inl rfl⟩

theorem get_block_state_eq (reg : BlockRegistry)
    (dimReg : String → Option DimInfo) (d d1 : DimensionState)
    (pos : Int × Int × Int) (c : Chunk)
    (hrun : d.try_initialize_chunk dimReg (pos.1.tdiv 16, pos.2.2.tdiv 16) =
      some d1)
    (hlook : d1.chunks.lookup (pos.1.tdiv 16, pos.2.2.tdiv 16) = some c) :
    d.get_block reg dimReg pos =
      (c.get_block_at reg (pos.1.tmod 16, pos.2.1, pos.2.2.tmod 16), d1) := by
  simp only [DimensionState.get_block, hrun, hlook]

theorem set_block_state_eq (reg : BlockRegistry)
    (beReg : String → Option Int) (dimReg : String → Option DimInfo)
    (d d1 : DimensionState) (pos : Int × Int × Int) (c : Chunk)
    (block : BlockState)
    (hrun : d.try_initialize_chunk dimReg (pos.1.tdiv 16, pos.2.2.tdiv 16) =
      some d1)
    (hlook : d1.chunks.lookup (pos.1.tdiv 16, pos.2.2.tdiv 16) = some c) :
    d.set_block reg beReg dimReg pos block =
      match c.set_block_at reg beReg (pos.1.tmod 16, pos.2.1, pos.2.2.tmod 16)
          block with
      | none => (none, d1)
      | some chunk2 =>
        (some (), { d1 with
          chunks := alInsert (pos.1.tdiv 16, pos.2.2.tdiv 16) chunk2
            d1.chunks }) := by
  simp only [DimensionState.set_block, hrun, hlook]

theorem usizeOfI32_small {x : Int} (h0 : 0 ≤ x) (h16 : x < 16) :
    usizeOfI32 x = x.toNat := by
  unfold usizeOfI32
  rw [Int.emod_eq_of_lt h0 (by omega)]

theorem chunk_set_get_in_range (reg : BlockRegistry)
    (beReg : String → Option Int) (c : Chunk) (mn mx : Int)
    (x y z : Int) (block : BlockState)
    (hwf : ChunkWF c mn mx)
    (hx0 : 0 ≤ x) (hx16 : x < 16) (hz0 : 0 ≤ z) (hz16 : z < 16)
    (hy1 : mn ≤ y.ediv 16) (hy2 : y.ediv 16 < mx) :
    (∃ c2, c.set_block_at reg beReg (x, y, z) block = some c2) ∧
      (c.get_block_at reg (x, y, z)).isSome := by
  obtain ⟨hmn, hslen, hblen⟩ := hwf
  have hi : c.section_index (y.ediv 16) = some (y.ediv 16 - mn).toNat := by
    unfold Chunk.section_index
    rw [hmn, hslen]
    rw [if_pos ⟨by omega, by omega⟩]
  have hsecidx : (y.ediv 16 - mn).toNat < c.sections.length := by
    rw [hslen]; omega
  obtain ⟨sec, hgetsec⟩ : ∃ sec,
      c.sections.get? (y.ediv 16 - mn).toNat = some sec := by
    rw [List.get?_eq_getElem?]
    exact ⟨_, List.getElem?_eq_getElem hsecidx⟩
  have hsecmem : sec ∈ c.sections := by
    have := List.get?_mem hgetsec
    exact this
  have hsec_len : sec.blocks.length = 4096 := hblen sec hsecmem
  have hidx : ChunkSection.index_from_pos
      (usizeOfI32 x, (y.emod 16).toNat, usizeOfI32 z) < 4096 := by
    rw [usizeOfI32_small hx0 hx16, usizeOfI32_small hz0 hz16]
    have hy16 : 0 ≤ y.emod 16 := Int.emod_nonneg y (by norm_num)
    have hy16b : y.emod 16 < 16 := Int.emod_lt_of_pos y (by norm_num)
    unfold ChunkSection.index_from_pos
    simp only
    omega
  have hblkidx : ChunkSection.index_from_pos
      (usizeOfI32 x, (y.emod 16).toNat, usizeOfI32 z) < sec.blocks.length := by
    rw [hsec_len]; exact hidx
  obtain ⟨v, hv⟩ : ∃ v, sec.blocks.get?
      (ChunkSection.index_from_pos
        (usizeOfI32 x, (y.emod 16).toNat, usizeOfI32 z)) = some v := by
    rw [List.get?_eq_getElem?]
    exact ⟨_, List.getElem?_eq_getElem hblkidx⟩
  constructor
  · simp only [Chunk.set_block_at, hi, hgetsec]
    rw [ChunkSection.set_block_at, hv]
    exact ⟨_, rfl⟩
  · simp only [Chunk.get_block_at, Chunk.section_at, hi, Option.some_bind,
      hgetsec]
    rw [ChunkSection.get_block_at, hv]
    simp

theorem get_chunk_section_state_eq (dimReg : String → Option DimInfo)
    (d d1 : DimensionState) (pos : Int × Int × Int) (c : Chunk)
    (hrun : d.try_initialize_chunk dimReg (pos.1, pos.2.2) = some d1)
    (hlook : d1.chunks.lookup (pos.1, pos.2.2) = some c) :
    d.get_chunk_section dimReg pos = (c.section_at (pos.2.1.tdiv 16), d1) := by
  simp only [DimensionState.get_chunk_section, hrun, hlook]

/-- C3 counterexample: world position (-1, 0, 0).  Floor division gives
chunk x-coordinate -1, but get_block lazily initializes (and reads) the
chunk at the Rust-truncated coordinate (0, 0): afterwards the chunk map
holds exactly the key (0, 0), not (-1, 0).  (At this position the read
itself then panics on the wrapped usize cast; the initialization has
already happened.) -/
theorem c3_counterexample :
    Int.fdiv (-1) 16 = -1 ∧
      (d0.get_block reg0 dimReg0 ((-1 : Int), 0, 0)).2.chunks.map Prod.fst =
        [((0 : Int), (0 : Int))] ∧
      ¬ (((-1 : Int), (0 : Int)) ∈
        (d0.get_block reg0 dimReg0 ((-1 : Int), 0, 0)).2.chunks.map
          Prod.fst) := by
  refine ⟨by decide, by decide, by decide⟩

/-- C3 (amended): get_block and set_block lazily initialize and operate
on the chunk at the Rust truncating division (x / 16, z / 16); this
coincides with floor (Euclidean) division exactly when the coordinate is
non-negative (or divisible by 16), so the claim holds for non-negative x
and z but not for negative coordinates. -/
theorem c3_chunk_selection_truncating (reg : BlockRegistry)
    (beReg : String → Option Int) (dimReg : String → Option DimInfo)
    (d : DimensionState) (pos : Int × Int × Int) (info : DimInfo)
    (block : BlockState)
    (hinfo : dimReg d.dim_type = some info) :
    (((d.get_block reg dimReg pos).2.chunks.lookup
        (pos.1.tdiv 16, pos.2.2.tdiv 16)).isSome) ∧
      (((d.set_block reg beReg dimReg pos block).2.chunks.lookup
        (pos.1.tdiv 16, pos.2.2.tdiv 16)).isSome) ∧
      (0 ≤ pos.1 → pos.1.tdiv 16 = pos.1.fdiv 16) ∧
      (0 ≤ pos.2.2 → pos.2.2.tdiv 16 = pos.2.2.fdiv 16) := by
  obtain ⟨d1, c, hrun, hlook, _⟩ := try_initialize_chunk_spec dimReg d
    (pos.1.tdiv 16, pos.2.2.tdiv 16) info hinfo
  refine ⟨?_, ?_, ?_, ?_⟩
  · rw [get_block_state_eq reg dimReg d d1 pos c hrun hlook]
    simp [hlook]
  · rw [set_block_state_eq reg beReg dimReg d d1 pos c block hrun hlook]
    rcases hset : c.set_block_at reg beReg
        (pos.1.tmod 16, pos.2.1, pos.2.2.tmod 16) block with _ | c2
    · simp [hlook]
    · simp [alInsert_lookup]
  · intro h
    rw [Int.tdiv_eq_ediv h (by norm_num), Int.fdiv_eq_ediv _ (by norm_num)]
  · intro h
    rw [Int.tdiv_eq_ediv h (by norm_num), Int.fdiv_eq_ediv _ (by norm_num)]

/-- C3 witness: the amended statement at a concrete dimension and
position. -/
theorem c3_chunk_selection_truncating_witness :
    (((d0.get_block reg0 dimReg0 (5, 10, 7)).2.chunks.lookup
        (Int.tdiv 5 16, Int.tdiv 7 16)).isSome) ∧
      (((d0.set_block reg0 beReg0 dimReg0 (5, 10, 7) stoneCD).2.chunks.lookup
        (Int.tdiv 5 16, Int.tdiv 7 16)).isSome) ∧
      (0 ≤ (5 : Int) → Int.tdiv 5 16 = Int.fdiv 5 16) ∧
      (0 ≤ (7 : Int) → Int.tdiv 7 16 = Int.fdiv 7 16) :=
  c3_chunk_selection_truncating reg0 beReg0 dimReg0 d0 (5, 10, 7) ⟨0, 16⟩
    stoneCD rfl

/-- C6 counterexample: a fresh dimension has no configured-bounds
mechanism at all.  At the arbitrarily distant chunk coordinate
(1000000, 1000000), get_block does NOT leave the chunk map unchanged —
it allocates and inserts that chunk (returning the air default read from
the newly created chunk) — and get_chunk_section returns a section, not
none.  So no chunk coordinate behaves as the claim describes. -/
theorem c6_counterexample :
    (d0.get_block reg0 dimReg0 (16000000, 0, 16000000)).1 =
        some (BlockState.from_protocol_id reg0 0) ∧
      (d0.get_block reg0 dimReg0 (16000000, 0, 16000000)).2.chunks.map
          Prod.fst = [((1000000 : Int), (1000000 : Int))] ∧
      ((d0.get_chunk_section dimReg0 (1000000, 0, 1000000)).1).isSome =
        true ∧
      (d0.get_chunk_section dimReg0 (1000000, 0, 1000000)).2.chunks.map
          Prod.fst = [((1000000 : Int), (1000000 : Int))] := by
  refine ⟨by decide, by decide, by decide, by decide⟩

/-- C6 (amended): the dimension has no configured bounds.  For every
chunk coordinate (with the dimension type resolvable and y within the
section range), get_chunk_section lazily initializes the chunk —
inserting it into the chunk map — and returns a section (never none),
and get_block likewise allocates the chunk of the queried position. -/
theorem c6_always_initializes (reg : BlockRegistry)
    (dimReg : String → Option DimInfo) (d : DimensionState)
    (cx cz y : Int) (info : DimInfo)
    (hinfo : dimReg d.dim_type = some info)
    (hWF : ∀ e ∈ d.chunks, ChunkWF e.2 (info.min_y.tdiv 16)
      ((info.min_y + i32ofU32 info.height).tdiv 16))
    (hgen : ∀ c a b, d.chunk_generator c a b = c)
    (hy1 : info.min_y.tdiv 16 ≤ y.tdiv 16)
    (hy2 : y.tdiv 16 < (info.min_y + i32ofU32 info.height).tdiv 16) :
    ((d.get_chunk_section dimReg (cx, y, cz)).1).isSome ∧
      (((d.get_chunk_section dimReg (cx, y, cz)).2.chunks.lookup
        (cx, cz)).isSome) ∧
      (((d.get_block reg dimReg (16 * cx, y, 16 * cz)).2.chunks.lookup
        (cx, cz)).isSome) := by
  obtain ⟨d1, c, hrun, hlook, hcase⟩ :=
    try_initialize_chunk_spec dimReg d (cx, cz) info hinfo
  have hcwf : ChunkWF c (info.min_y.tdiv 16)
      ((info.min_y + i32ofU32 info.height).tdiv 16) := by
    rcases hcase with hold | ⟨_, hnew⟩
    · exact hWF _ (lookup_mem hold)
    · rw [hnew, hgen]
      exact chunk_new_WF _ _
  obtain ⟨hmn, hslen, _⟩ := hcwf
  have hi : c.section_index (y.tdiv 16) = some
      (y.tdiv 16 - info.min_y.tdiv 16).toNat := by
    unfold Chunk.section_index
    rw [hmn, hslen]
    rw [if_pos ⟨by omega, by omega⟩]
  have hsecidx : (y.tdiv 16 - info.min_y.tdiv 16).toNat <
      c.sections.length := by
    rw [hslen]; omega
  refine ⟨?_, ?_, ?_⟩
  · rw [get_chunk_section_state_eq dimReg d d1 (cx, y, cz) c hrun hlook]
    simp only [Chunk.section_at, hi, Option.some_bind]
    rw [List.get?_eq_getElem?]
    simp [List.getElem?_eq_getElem hsecidx]
  · rw [get_chunk_section_state_eq dimReg d d1 (cx, y, cz) c hrun hlook]
    simp [hlook]
  · have hdx : (16 * cx).tdiv 16 = cx := Int.mul_tdiv_cancel_left cx
      (by norm_num)
    have hdz : (16 * cz).tdiv 16 = cz := Int.mul_tdiv_cancel_left cz
      (by norm_num)
    obtain ⟨d2, c2, hrun2, hlook2, _⟩ := try_initialize_chunk_spec dimReg d
      (((16 * cx : Int)).tdiv 16, ((16 * cz : Int)).tdiv 16) info hinfo
    rw [get_block_state_eq reg dimReg d d2 (16 * cx, y, 16 * cz) c2 hrun2
      hlook2]
    rw [hdx, hdz] at hlook2
    simp [hlook2]

/-- C6 witness: the amended statement at a concrete distant chunk
coordinate on a fresh dimension. -/
theorem c6_always_initializes_witness :
    ((d0.get_chunk_section dimReg0 (1000000, 0, 1000000)).1).isSome ∧
      (((d0.get_chunk_section dimReg0 (1000000, 0, 1000000)).2.chunks.lookup
        (1000000, 1000000)).isSome) ∧
      (((d0.get_block reg0 dimReg0 (16 * 1000000, 0, 16 * 1000000)).2.chunks.lookup
        (1000000, 1000000)).isSome) :=
  c6_always_initializes reg0 dimReg0 d0 1000000 1000000 0 ⟨0, 16⟩ rfl
    (by simp [d0]) (fun _ _ _ => rfl) (by decide) (by decide)

/-- C10: with non-negative x and z (and y within the chunk's section
range, the dimension type resolvable, chunks well-formed, and the
default no-op generator), the local coordinates computed with the Rust
remainders x % 16 and z % 16 lie in [0, 16), the flat section index is
below 4096, and both set_block and get_block complete without panicking
(the unwrap on the block-array read is unreachable). -/
theorem c10_nonnegative_no_panic (reg : BlockRegistry)
    (beReg : String → Option Int) (dimReg : String → Option DimInfo)
    (d : DimensionState) (x y z : Int) (block : BlockState) (info : DimInfo)
    (hx : 0 ≤ x) (hz : 0 ≤ z)
    (hinfo : dimReg d.dim_type = some info)
    (hWF : ∀ e ∈ d.chunks, ChunkWF e.2 (info.min_y.tdiv 16)
      ((info.min_y + i32ofU32 info.height).tdiv 16))
    (hgen : ∀ c a b, d.chunk_generator c a b = c)
    (hy1 : info.min_y.tdiv 16 ≤ y.ediv 16)
    (hy2 : y.ediv 16 < (info.min_y + i32ofU32 info.height).tdiv 16) :
    (0 ≤ x.tmod 16 ∧ x.tmod 16 < 16) ∧
      (0 ≤ z.tmod 16 ∧ z.tmod 16 < 16) ∧
      ChunkSection.index_from_pos
        (usizeOfI32 (x.tmod 16), (y.emod 16).toNat,
          usizeOfI32 (z.tmod 16)) < 4096 ∧
      (d.set_block reg beReg dimReg (x, y, z) block).1 = some () ∧
      ((d.get_block reg dimReg (x, y, z)).1).isSome := by
  have hxm : 0 ≤ x.tmod 16 := Int.tmod_nonneg 16 hx
  have hxm16 : x.tmod 16 < 16 := Int.tmod_lt_of_pos x (by norm_num)
  have hzm : 0 ≤ z.tmod 16 := Int.tmod_nonneg 16 hz
  have hzm16 : z.tmod 16 < 16 := Int.tmod_lt_of_pos z (by norm_num)
  have hym : 0 ≤ y.emod 16 := Int.emod_nonneg y (by norm_num)
  have hym16 : y.emod 16 < 16 := Int.emod_lt_of_pos y (by norm_num)
  have hidx : ChunkSection.index_from_pos
      (usizeOfI32 (x.tmod 16), (y.emod 16).toNat,
        usizeOfI32 (z.tmod 16)) < 4096 := by
    rw [usizeOfI32_small hxm hxm16, usizeOfI32_small hzm hzm16]
    unfold ChunkSection.index_from_pos
    simp only
    omega
  obtain ⟨d1, c, hrun, hlook, hcase⟩ := try_initialize_chunk_spec dimReg d
    (x.tdiv 16, z.tdiv 16) info hinfo
  have hcwf : ChunkWF c (info.min_y.tdiv 16)
      ((info.min_y + i32ofU32 info.height).tdiv 16) := by
    rcases hcase with hold | ⟨_, hnew⟩
    · exact hWF _ (lookup_mem hold)
    · rw [hnew, hgen]
      exact chunk_new_WF _ _
  obtain ⟨⟨c2, hsetc⟩, hgetc⟩ := chunk_set_get_in_range reg beReg c
    (info.min_y.tdiv 16) ((info.min_y + i32ofU32 info.height).tdiv 16)
    (x.tmod 16) y (z.tmod 16) block hcwf hxm hxm16 hzm hzm16 hy1 hy2
  refine ⟨⟨hxm, hxm16⟩, ⟨hzm, hzm16⟩, hidx, ?_, ?_⟩
  · rw [set_block_state_eq reg beReg dimReg d d1 (x, y, z) c block hrun
      hlook]
    simp [hsetc]
  · rw [get_block_state_eq reg dimReg d d1 (x, y, z) c hrun hlook]
    simpa using hgetc

/-- C10 witness: the panic-free completion at a concrete non-negative
position on a fresh dimension. -/
theorem c10_nonnegative_no_panic_witness :
    (0 ≤ Int.tmod 5 16 ∧ Int.tmod 5 16 < 16) ∧
      (0 ≤ Int.tmod 7 16 ∧ Int.tmod 7 16 < 16) ∧
      ChunkSection.index_from_pos
        (usizeOfI32 (Int.tmod 5 16), ((10 : Int).emod 16).toNat,
          usizeOfI32 (Int.tmod 7 16)) < 4096 ∧
      (d0.set_block reg0 beReg0 dimReg0 (5, 10, 7) stoneCD).1 = some () ∧
      ((d0.get_block reg0 dimReg0 (5, 10, 7)).1).isSome :=
  c10_nonnegative_no_panic reg0 beReg0 dimReg0 d0 5 10 7 stoneCD ⟨0, 16⟩
    (by decide) (by decide) rfl (by simp [d0]) (fun _ _ _ => rfl)
    (by decide) (by decide)

/-- The list of IDs produced by n successive new_entity_id calls. -/
def idTrace (sv : ServerData) : Nat → List Int
  | 0 => []
  | n + 1 => sv.new_entity_id.1 :: idTrace sv.new_entity_id.2 n

/-- A sequence of spawn_entity calls on one dimension, each with its own
entropy stream, fuel and entity type; fails if any single spawn fails.
Returns the (uuid, id) pairs in call order with the final states. -/
def spawn_entity_many (args : List ((Nat → Nat) × Nat × String))
    (d : DimensionState) (sv : ServerData) :
    Option (List (Nat × Int) × DimensionState × ServerData) :=
  match args with
  | [] => some ([], d, sv)
  | a :: rest =>
    match DimensionState.spawn_entity a.1 a.2.1 a.2.2 d sv with
    | none => none
    | some (ui, d2, sv2) =>
      match spawn_entity_many rest d2 sv2 with
      | none => none
      | some (t, d3, sv3) => some (ui :: t, d3, sv3)

theorem wrapI32_eq_self {x : Int} (h1 : -2 ^ 31 ≤ x) (h2 : x < 2 ^ 31) :
    wrapI32 x = x := by
  unfold wrapI32
  rw [Int.emod_eq_of_lt (by omega) (by omega)]
  omega

/-- The arithmetic progression c+1, c+2, ..., c+n. -/
def progression (c : Int) : Nat → List Int
  | 0 => []
  | n + 1 => (c + 1) :: progression (c + 1) n

theorem progression_mem_gt {c x : Int} {n : Nat}
    (h : x ∈ progression c n) : c < x := by
  induction n generalizing c with
  | zero => simp [progression] at h
  | succ n ih =>
    rw [progression] at h
    rcases List.mem_cons.mp h with rfl | h2
    · omega
    · have := ih h2
      omega

theorem progression_chain (c : Int) (n : Nat) :
    (progression c n).Chain' (· < ·) := by
  induction n generalizing c with
  | zero => exact List.chain'_nil
  | succ n ih =>
    rw [progression]
    refine List.chain'_cons'.mpr ⟨?_, ih (c + 1)⟩
    intro b hb
    exact progression_mem_gt (List.mem_of_mem_head? hb)

theorem progression_nodup (c : Int) (n : Nat) :
    (progression c n).Nodup := by
  induction n generalizing c with
  | zero => exact List.nodup_nil
  | succ n ih =>
    rw [progression]
    refine List.nodup_cons.mpr ⟨?_, ih (c + 1)⟩
    intro hmem
    exact absurd (progression_mem_gt hmem) (by omega)

theorem idTrace_eq (c : Int) (n : Nat) (h1 : -2 ^ 31 ≤ c)
    (h2 : c + n < 2 ^ 31) :
    idTrace ⟨c⟩ n = progression c n := by
  induction n generalizing c with
  | zero => rfl
  | succ n ih =>
    have hw : wrapI32 (c + 1) = c + 1 :=
      wrapI32_eq_self (by omega) (by omega)
    have hstep : idTrace ⟨c⟩ (n + 1) =
        wrapI32 (c + 1) :: idTrace ⟨wrapI32 (c + 1)⟩ n := rfl
    rw [progression, hstep, hw, ih (c + 1) (by omega) (by omega)]

theorem freshUuid_not_taken (gen : Nat → Nat) (taken : List Nat)
    (i fuel : Nat) (u : Nat) (h : freshUuid gen taken i fuel = some u) :
    ¬ u ∈ taken := by
  induction fuel generalizing i with
  | zero => simp [freshUuid] at h
  | succ fuel ih =>
    rw [freshUuid] at h
    by_cases hc : taken.contains (gen i)
    · rw [if_pos hc] at h
      exact ih (i + 1) h
    · rw [if_neg hc] at h
      obtain rfl := Option.some_injective _ h
      simpa using hc

theorem mem_keys_alInsert {κ α : Type} [DecidableEq κ] {x k : κ} (v : α)
    (l : List (κ × α)) (hx : x ∈ l.map Prod.fst) :
    x ∈ (alInsert k v l).map Prod.fst := by
  by_cases he : x = k
  · subst he
    simp [alInsert]
  · obtain ⟨e, hmem, hfst⟩ := List.mem_map.mp hx
    refine List.mem_map.mpr ⟨e, ?_, hfst⟩
    simp only [alInsert, List.mem_cons]
    right
    rw [List.mem_filter]
    refine ⟨hmem, ?_⟩
    subst hfst
    simpa using he

theorem spawn_entity_fields (gen : Nat → Nat) (fuel : Nat) (ty : String)
    (d : DimensionState) (sv : ServerData) (u : Nat) (i : Int)
    (d2 : DimensionState) (sv2 : ServerData)
    (h : DimensionState.spawn_entity gen fuel ty d sv = some ((u, i), d2, sv2)) :
    ¬ u ∈ d.entities.map Prod.fst ∧
      (∀ x ∈ d.entities.map Prod.fst, x ∈ d2.entities.map Prod.fst) ∧
      u ∈ d2.entities.map Prod.fst ∧
      i = wrapI32 (sv.last_entity_id + 1) ∧
      sv2 = ⟨wrapI32 (sv.last_entity_id + 1)⟩ := by
  rcases hf : freshUuid gen (d.entities.map Prod.fst) 0 fuel with _ | u0
  · rw [DimensionState.spawn_entity, hf] at h; cases h
  · rw [DimensionState.spawn_entity, hf] at h
    simp only [Option.some_inj, Prod.mk.injEq] at h
    obtain ⟨⟨rfl, rfl⟩, rfl, rfl⟩ := h
    refine ⟨freshUuid_not_taken _ _ _ _ _ hf, ?_, ?_, rfl, rfl⟩
    · intro x hx
      exact mem_keys_alInsert _ _ hx
    · simp [alInsert]

theorem spawn_many_spec (args : List ((Nat → Nat) × Nat × String))
    (d : DimensionState) (sv : ServerData) (out : List (Nat × Int))
    (d2 : DimensionState) (sv2 : ServerData)
    (hrun : spawn_entity_many args d sv = some (out, d2, sv2)) :
    (∀ x ∈ d.entities.map Prod.fst, ¬ x ∈ out.map Prod.fst) ∧
      (out.map Prod.fst).Nodup ∧
      (-2 ^ 31 ≤ sv.last_entity_id →
        sv.last_entity_id + args.length < 2 ^ 31 →
        out.map Prod.snd = progression sv.last_entity_id args.length) := by
  induction args generalizing d sv out with
  | nil =>
    rw [spawn_entity_many] at hrun
    simp only [Option.some_inj, Prod.mk.injEq] at hrun
    obtain ⟨rfl, rfl, rfl⟩ := hrun
    exact ⟨by simp, List.nodup_nil, fun _ _ => rfl⟩
  | cons a rest ih =>
    rcases hsp : DimensionState.spawn_entity a.1 a.2.1 a.2.2 d sv
      with _ | ⟨⟨u, i⟩, d9, sv9⟩
    · rw [spawn_entity_many, hsp] at hrun; cases hrun
    · have hstep : spawn_entity_many (a :: rest) d sv =
          (match spawn_entity_many rest d9 sv9 with
           | none => none
           | some (t, d3, sv3) => some ((u, i) :: t, d3, sv3)) := by
        rw [spawn_entity_many, hsp]
      rw [hstep] at hrun
      rcases hrest : spawn_entity_many rest d9 sv9 with _ | ⟨t, d3, sv3⟩
      · rw [hrest] at hrun; cases hrun
      · rw [hrest] at hrun
        simp only [Option.some_inj, Prod.mk.injEq] at hrun
        obtain ⟨rfl, rfl, rfl⟩ := hrun
        obtain ⟨hfresh, hmono, humem, hid, hsv⟩ :=
          spawn_entity_fields a.1 a.2.1 a.2.2 d sv u i d9 sv9 hsp
        obtain ⟨ihavoid, ihnodup, ihids⟩ := ih d9 sv9 t hrest
        refine ⟨?_, ?_, ?_⟩
        · intro x hx
          have hxu : x ≠ u := fun he => hfresh (he ▸ hx)
          have hxt : ¬ x ∈ t.map Prod.fst := ihavoid x (hmono x hx)
          simp only [List.map_cons, List.mem_cons]
          rintro (rfl | hm)
          · exact hxu rfl
          · exact hxt hm
        · simp only [List.map_cons]
          exact List.nodup_cons.mpr ⟨ihavoid u humem, ihnodup⟩
        · intro hlo hhi
          simp only [List.length_cons] at hhi
          have hw : wrapI32 (sv.last_entity_id + 1) = sv.last_entity_id + 1 :=
            wrapI32_eq_self (by omega) (by omega)
          have hids := ihids (by rw [hsv]; simp only; omega)
            (by rw [hsv]; simp only [hw]; omega)
          simp only [List.map_cons, hids, hsv, hid, hw, List.length_cons,
            progression]


/-- C8 counterexample: UUID distinctness ACROSS dimensions is not
enforced by any code; it rests on the randomness of Uuid::new_v4, here
modelled as the entropy stream each spawn draws from.  With two fresh
dimensions of the same server whose entropy streams both yield 5 first,
spawn_entity on dimension A gives (uuid 5, id 1) and a subsequent
spawn_entity on dimension B (server counter threaded through) gives
(uuid 5, id 2): the numeric entity IDs increase but the UUIDs collide,
so the claim that every sequence of spawn_entity calls on any dimensions
yields pairwise-distinct UUIDs is false.  Each dimension's own retry
loop checks only its own table. -/
theorem c8_counterexample :
    (DimensionState.spawn_entity (fun _ => 5) 1 ("minecraft:pig") d0
        ⟨0⟩).map (fun r => r.1) = some (5, 1) ∧
      (DimensionState.spawn_entity (fun _ => 5) 1 ("minecraft:cow") d0
        ⟨1⟩).map (fun r => r.1) = some (5, 2) := by
  exact ⟨rfl, rfl⟩

/-- C8 (amended): the Server's new_entity_id values are strictly
increasing and never reused while the i32 counter does not overflow, and
every sequence of spawn_entity calls on a SINGLE dimension yields
pairwise-distinct UUIDs (enforced by the retry loop against that
dimension's table) together with strictly increasing, never-reused
numeric IDs; across different dimensions only the IDs are guaranteed
distinct, not the UUIDs. -/
theorem c8_ids_increase_uuids_fresh (c : Int) (m : Nat)
    (args : List ((Nat → Nat) × Nat × String)) (d : DimensionState)
    (out : List (Nat × Int)) (d2 : DimensionState) (sv2 : ServerData)
    (hlo : -2 ^ 31 ≤ c) (hm : c + m < 2 ^ 31)
    (hargs : c + args.length < 2 ^ 31)
    (hrun : spawn_entity_many args d ⟨c⟩ = some (out, d2, sv2)) :
    (idTrace ⟨c⟩ m).Chain' (· < ·) ∧ (idTrace ⟨c⟩ m).Nodup ∧
      (out.map Prod.fst).Nodup ∧
      (out.map Prod.snd).Chain' (· < ·) ∧ (out.map Prod.snd).Nodup := by
  have hid := idTrace_eq c m hlo hm
  obtain ⟨_, hnodup, hids⟩ :=
    spawn_many_spec args d ⟨c⟩ out d2 sv2 hrun
  have hids2 := hids hlo hargs
  refine ⟨?_, ?_, hnodup, ?_, ?_⟩
  · rw [hid]; exact progression_chain c m
  · rw [hid]; exact progression_nodup c m
  · rw [hids2]; exact progression_chain c args.length
  · rw [hids2]; exact progression_nodup c args.length

/-- C8 witness: two spawns on one fresh dimension with distinct entropy
values, plus three new_entity_id calls, on a fresh server counter. -/
theorem c8_ids_increase_uuids_fresh_witness :
    ∃ (out : List (Nat × Int)) (d2 : DimensionState) (sv2 : ServerData),
      spawn_entity_many
          [(fun _ => 5, 1, ("minecraft:pig")),
            (fun _ => 6, 1, ("minecraft:cow"))] d0 ⟨0⟩ =
        some (out, d2, sv2) ∧
      (idTrace ⟨0⟩ 3).Chain' (· < ·) ∧ (idTrace ⟨0⟩ 3).Nodup ∧
      (out.map Prod.fst).Nodup ∧
      (out.map Prod.snd).Chain' (· < ·) ∧ (out.map Prod.snd).Nodup := by
  rcases hs : spawn_entity_many
      [(fun _ => 5, 1, ("minecraft:pig")),
        (fun _ => 6, 1, ("minecraft:cow"))] d0 ⟨0⟩ with _ | ⟨out, d2, sv2⟩
  · have hT : (spawn_entity_many
        [(fun _ => 5, 1, ("minecraft:pig")),
          (fun _ => 6, 1, ("minecraft:cow"))] d0 ⟨0⟩).isSome = true := rfl
    rw [hs] at hT
    cases hT
  · exact ⟨out, d2, sv2, rfl,
      c8_ids_increase_uuids_fresh 0 3
        [(fun _ => 5, 1, ("minecraft:pig")),
          (fun _ => 6, 1, ("minecraft:cow"))] d0 out d2 sv2
        (by norm_num) (by norm_num) (by norm_num) hs⟩

/-- A connection state mid-teleport: the server has sent teleport ID 7,
the client has acknowledged 0. -/
def c4s0 : ConnState :=
  ⟨none, some (0, 0), some 7, some 0, ((0 : ℚ), (64 : ℚ), (0 : ℚ)), (0, 0),
    [], 10, true, true, []⟩


theorem send_chunks_preserves (s : ConnState) :
    (send_chunks s).position = s.position ∧
      (send_chunks s).direction = s.direction ∧
      (send_chunks s).teleport_sync_sent = s.teleport_sync_sent ∧
      (send_chunks s).teleport_sync_received = s.teleport_sync_received ∧
      (send_chunks s).sender_alive = s.sender_alive ∧
      (send_chunks s).events = s.events ∧
      (send_chunks s).last_position = s.last_position ∧
      (send_chunks s).render_distance = s.render_distance ∧
      (send_chunks s).has_dimension = s.has_dimension := by
  unfold send_chunks
  split
  · exact ⟨rfl, rfl, rfl, rfl, rfl, rfl, rfl, rfl, rfl⟩
  · split
    · exact ⟨rfl, rfl, rfl, rfl, rfl, rfl, rfl, rfl, rfl⟩
    · exact ⟨rfl, rfl, rfl, rfl, rfl, rfl, rfl, rfl, rfl⟩

theorem handleMovePlayerPos_pass (s : ConnState) (x y z : ℚ) (dir : ℚ × ℚ)
    (hgate : ¬ (s.teleport_sync_sent.getD 0 > s.teleport_sync_received.getD 1))
    (hdir : s.direction = some dir)
    (halive : s.sender_alive = true) :
    (handleMovePlayerPos s x y z).position = some (x, y, z) ∧
      (handleMovePlayerPos s x y z).events =
        s.events ++ [PlayEvent.playerMove (x, y, z) dir] := by
  have hp := send_chunks_preserves { s with position := some (x, y, z) }
  have hpos : (send_chunks { s with position := some (x, y, z) }).position =
      some (x, y, z) := hp.1
  have hdir2 : (send_chunks { s with position := some (x, y, z) }).direction =
      some dir := by rw [hp.2.1]; exact hdir
  have halive2 :
      (send_chunks { s with position := some (x, y, z) }).sender_alive =
        true := by rw [hp.2.2.2.2.1]; exact halive
  have hev : (send_chunks { s with position := some (x, y, z) }).events =
      s.events := hp.2.2.2.2.2.1
  unfold handleMovePlayerPos
  rw [if_neg hgate]
  constructor
  · simp only [halive2, if_true, hpos, hdir2]
  · simp only [halive2, if_true, hpos, hdir2, hev]

theorem handleAcceptTeleportation_pos (s : ConnState) (tid : Int)
    (h1 : ¬ tid = 0) (h2 : tid ≠ -1) :
    handleAcceptTeleportation s tid =
      some (send_chunks { s with teleport_sync_received := some tid }) := by
  unfold handleAcceptTeleportation
  rw [if_neg h1, if_pos h2]

/-- C4: while TELEPORT_SYNC_SENT exceeds TELEPORT_SYNC_RECEIVED (with
the source's unwrap_or defaults 0 and 1), an incoming MovePlayerPos is
dropped — the connection state, in particular POSITION and the event
list, is left entirely unchanged; and after an AcceptTeleportation with
a positive teleport ID at least the pending TELEPORT_SYNC_SENT value
(the ID the server sent) is processed, a subsequent MovePlayerPos
updates POSITION to the packet coordinates and dispatches a
PlayerMoveEvent with them. -/
theorem c4_teleport_sync_gate (s : ConnState) (x y z : ℚ) (tid : Int)
    (dir : ℚ × ℚ)
    (hgate : s.teleport_sync_sent.getD 0 > s.teleport_sync_received.getD 1)
    (htid : 0 < tid)
    (hge : s.teleport_sync_sent.getD 0 ≤ tid)
    (hdir : s.direction = some dir)
    (halive : s.sender_alive = true) :
    handleMovePlayerPos s x y z = s ∧
      ∃ s1, handleAcceptTeleportation s tid = some s1 ∧
        (handleMovePlayerPos s1 x y z).position = some (x, y, z) ∧
        (handleMovePlayerPos s1 x y z).events =
          s.events ++ [PlayEvent.playerMove (x, y, z) dir] := by
  constructor
  · unfold handleMovePlayerPos
    rw [if_pos hgate]
  · refine ⟨send_chunks { s with teleport_sync_received := some tid },
      handleAcceptTeleportation_pos s tid (by omega) (by omega), ?_⟩
    have hp := send_chunks_preserves { s with teleport_sync_received := some tid }
    have hsent : (send_chunks { s with teleport_sync_received := some tid }).teleport_sync_sent = s.teleport_sync_sent := hp.2.2.1
    have hrecv : (send_chunks { s with teleport_sync_received := some tid }).teleport_sync_received = some tid := hp.2.2.2.1
    have hdir1 : (send_chunks { s with teleport_sync_received := some tid }).direction = some dir := by rw [hp.2.1]; exact hdir
    have halive1 : (send_chunks { s with teleport_sync_received := some tid }).sender_alive = true := by rw [hp.2.2.2.2.1]; exact halive
    have hev1 : (send_chunks { s with teleport_sync_received := some tid }).events = s.events := hp.2.2.2.2.2.1
    have hgate2 : ¬ ((send_chunks { s with teleport_sync_received := some tid }).teleport_sync_sent.getD 0 > (send_chunks { s with teleport_sync_received := some tid }).teleport_sync_received.getD 1) := by
      rw [hsent, hrecv]
      simp only [Option.getD_some]
      omega
    obtain ⟨h1, h2⟩ := handleMovePlayerPos_pass
      (send_chunks { s with teleport_sync_received := some tid }) x y z
      dir hgate2 hdir1 halive1
    rw [hev1] at h2
    exact ⟨h1, h2⟩

/-- C4 witness: the scenario of the spec — the server sent teleport ID
7, the client has acknowledged 0; a MovePlayerPos is dropped; after
AcceptTeleportation(7), MovePlayerPos(1, 2, 3) updates POSITION and
dispatches the PlayerMoveEvent. -/
theorem c4_teleport_sync_gate_witness :
    handleMovePlayerPos c4s0 1 2 3 = c4s0 ∧
      ∃ s1, handleAcceptTeleportation c4s0 7 = some s1 ∧
        (handleMovePlayerPos s1 1 2 3).position = some (1, 2, 3) ∧
        (handleMovePlayerPos s1 1 2 3).events =
          c4s0.events ++ [PlayEvent.playerMove (1, 2, 3) (0, 0)] :=
  c4_teleport_sync_gate c4s0 1 2 3 7 (0, 0) (by decide) (by decide)
    (by decide) rfl rfl

/-- A fresh connection at world position (0, 64, 0) with render
distance 0 (effective radius connRd = 2, a 4 x 4 window): no chunks
loaded yet. -/
def c5s0 : ConnState :=
  ⟨none, none, none, none, ((0 : ℚ), (64 : ℚ), (0 : ℚ)), (0, 0), [], 0,
    true, true, []⟩

/-- Modelled from the spec: the sort key the spec describes, the squared
Euclidean distance to the center.  The source instead sorts by
i32::isqrt of this quantity, which collapses distinct squared distances
onto the same key. -/
def specSqDist (c p : Int × Int) : Int :=
  (p.1 - c.1) * (p.1 - c.1) + (p.2 - c.2) * (p.2 - c.2)

/-- n successive send_chunks invocations. -/
def sendN : Nat → ConnState → ConnState
  | 0, s => s
  | n + 1, s => sendN n (send_chunks s)

/-- The chunks streamed (picked and marked loaded) by n successive
send_chunks invocations, in order. -/
def streamed : Nat → ConnState → List (Int × Int)
  | 0, _ => []
  | n + 1, s => (sendChunksPick s).toList ++ streamed n (send_chunks s)

theorem contains_append (l1 l2 : List (Int × Int)) (q : Int × Int) :
    (l1 ++ l2).contains q = (l1.contains q || l2.contains q) := by
  induction l1 with
  | nil => simp
  | cons a t ih => simp [List.contains_cons, ih, Bool.or_assoc]

theorem contains_singleton (p q : Int × Int) :
    ([p].contains q) = (q == p) := by
  cases hqp : q == p <;> simp_all

theorem intRange_mem {x : Int} :
    ∀ (n : Nat) (lo : Int), x ∈ intRange lo n ↔ lo ≤ x ∧ x < lo + n := by
  intro n
  induction n with
  | zero => intro lo; simp [intRange]
  | succ n ih =>
    intro lo
    simp only [intRange, List.mem_cons, ih (lo + 1)]
    push_cast
    omega

theorem intRange_nodup : ∀ (n : Nat) (lo : Int), (intRange lo n).Nodup := by
  intro n
  induction n with
  | zero => intro lo; simp [intRange]
  | succ n ih =>
    intro lo
    rw [intRange, List.nodup_cons]
    refine ⟨?_, ih (lo + 1)⟩
    rw [intRange_mem]
    omega

theorem chunkWindow_mem (c : Int × Int) (rd : Int) (p : Int × Int) :
    p ∈ chunkWindow c rd ↔
      (c.1 - rd ≤ p.1 ∧ p.1 < c.1 - rd + ((2 * rd).toNat : Int)) ∧
      (c.2 - rd ≤ p.2 ∧ p.2 < c.2 - rd + ((2 * rd).toNat : Int)) := by
  unfold chunkWindow
  simp only [List.mem_flatMap, List.mem_map, intRange_mem]
  constructor
  · rintro ⟨x, hx, z, hz, rfl⟩
    exact ⟨hx, hz⟩
  · rintro ⟨hx, hz⟩
    exact ⟨p.1, hx, p.2, hz, rfl⟩

theorem chunkWindow_inWindowB (c : Int × Int) (rd : Int) (p : Int × Int)
    (h : p ∈ chunkWindow c rd) : inWindowB c rd p = true := by
  rw [chunkWindow_mem] at h
  unfold inWindowB
  simp only [Bool.and_eq_true, decide_eq_true_eq]
  omega

theorem chunkWindow_nodup (c : Int × Int) (rd : Int) :
    (chunkWindow c rd).Nodup := by
  unfold chunkWindow
  exact List.Nodup.product (intRange_nodup _ _) (intRange_nodup _ _)

theorem connCandidates_nodup (s : ConnState) : (connCandidates s).Nodup :=
  List.Nodup.filter _ (chunkWindow_nodup _ _)

theorem sendChunksPick_none_iff (s : ConnState) :
    sendChunksPick s = none ↔ connCandidates s = [] := by
  unfold sendChunksPick
  rw [List.head?_eq_none_iff]
  constructor
  · intro h
    have hperm :=
      List.perm_insertionSort (sortKeyRel (connCenter s)) (connCandidates s)
    rw [h] at hperm
    exact hperm.symm.eq_nil
  · intro h
    rw [h]
    rfl

theorem sendChunksPick_spec (s : ConnState) (p : Int × Int)
    (h : sendChunksPick s = some p) :
    p ∈ connCandidates s ∧
      ∀ q ∈ connCandidates s,
        distKey (connCenter s) p ≤ distKey (connCenter s) q := by
  unfold sendChunksPick at h
  have hperm :=
    List.perm_insertionSort (sortKeyRel (connCenter s)) (connCandidates s)
  have hsorted :=
    List.sorted_insertionSort (sortKeyRel (connCenter s)) (connCandidates s)
  cases hls :
      List.insertionSort (sortKeyRel (connCenter s)) (connCandidates s) with
  | nil => rw [hls] at h; exact absurd h (by simp)
  | cons a t =>
    rw [hls] at h hperm hsorted
    have hpa : a = p := by simpa using h
    subst hpa
    constructor
    · exact hperm.subset (List.mem_cons_self a t)
    · intro q hq
      rcases List.mem_cons.mp (hperm.mem_iff.mpr hq) with rfl | hqt
      · exact le_refl _
      · exact (List.sorted_cons.mp hsorted).1 q hqt

theorem send_chunks_geom (s : ConnState) :
    connCenter (send_chunks s) = connCenter s ∧
    connRd (send_chunks s) = connRd s := by
  have hp := send_chunks_preserves s
  constructor
  · unfold connCenter
    rw [hp.2.2.2.2.2.2.1]
  · unfold connRd
    rw [hp.2.2.2.2.2.2.2.1]

theorem send_chunks_loaded (s : ConnState) (hdim : s.has_dimension = true) :
    (send_chunks s).loaded_chunks =
      prunedLoaded s ++ (sendChunksPick s).toList := by
  cases hp : sendChunksPick s <;>
    simp [send_chunks, hdim, hp]

theorem prunedLoaded_send (s : ConnState) (hdim : s.has_dimension = true) :
    prunedLoaded (send_chunks s) =
      prunedLoaded s ++ (sendChunksPick s).toList := by
  have h1 : prunedLoaded (send_chunks s) =
      (prunedLoaded s ++ (sendChunksPick s).toList).filter
        (inWindowB (connCenter s) (connRd s)) := by
    show (send_chunks s).loaded_chunks.filter
        (inWindowB (connCenter (send_chunks s)) (connRd (send_chunks s))) = _
    rw [(send_chunks_geom s).1, (send_chunks_geom s).2,
      send_chunks_loaded s hdim]
  rw [h1, List.filter_append]
  congr 1
  · show ((s.loaded_chunks.filter (inWindowB (connCenter s) (connRd s))).filter
        (inWindowB (connCenter s) (connRd s))) = _
    rw [List.filter_filter]
    simp [Bool.and_self]
    rfl
  · cases hp : sendChunksPick s with
    | none => simp
    | some p =>
      simp only [Option.toList_some]
      have hmem := (sendChunksPick_spec s p hp).1
      have hw : inWindowB (connCenter s) (connRd s) p = true := by
        refine chunkWindow_inWindowB _ _ _ ?_
        exact (List.mem_filter.mp hmem).1
      simp [hw]

theorem connCandidates_send (s : ConnState) (hdim : s.has_dimension = true) :
    connCandidates (send_chunks s) =
      (connCandidates s).filter
        (fun q => !((sendChunksPick s).toList.contains q)) := by
  unfold connCandidates
  rw [(send_chunks_geom s).1, (send_chunks_geom s).2, List.filter_filter]
  have h1 : prunedLoaded (send_chunks s) =
      prunedLoaded s ++ (sendChunksPick s).toList := prunedLoaded_send s hdim
  apply List.filter_congr
  intro a _
  rw [h1, contains_append]
  simp [Bool.not_or, Bool.and_comm]

/-- C5 (amended): send_chunks streams at most one chunk per call, a
not-yet-loaded window chunk of minimal i32::isqrt(squared-distance) key
(not necessarily nearest by exact Euclidean distance, since isqrt
collapses distinct squared distances), appending it to loaded_chunks
before the fetch task is dispatched; for a player at a fixed position,
n invocations stream at most n chunks, pairwise distinct, all drawn
from the unloaded window candidates, in non-decreasing order of the
isqrt key, and exactly n when at least n candidates exist. -/
theorem c5_chunk_stream (s : ConnState) (n : Nat)
    (hdim : s.has_dimension = true) :
    (send_chunks s).loaded_chunks =
        prunedLoaded s ++ (sendChunksPick s).toList ∧
    (∀ p, sendChunksPick s = some p →
        p ∈ connCandidates s ∧
          ∀ q ∈ connCandidates s,
            distKey (connCenter s) p ≤ distKey (connCenter s) q) ∧
    (streamed n s).length ≤ n ∧
    (streamed n s).Nodup ∧
    (∀ q ∈ streamed n s, q ∈ connCandidates s) ∧
    (streamed n s).Chain'
      (fun a b => distKey (connCenter s) a ≤ distKey (connCenter s) b) ∧
    prunedLoaded (sendN n s) = prunedLoaded s ++ streamed n s ∧
    (n ≤ (connCandidates s).length → (streamed n s).length = n) := by
  refine ⟨send_chunks_loaded s hdim,
    fun p hp => sendChunksPick_spec s p hp, ?_⟩
  induction n generalizing s hdim with
  | zero =>
    exact ⟨by simp [streamed], by simp [streamed], by simp [streamed],
      by simp [streamed], by simp [sendN, streamed], by simp [streamed]⟩
  | succ n ih =>
    have hdim' : (send_chunks s).has_dimension = true := by
      rw [(send_chunks_preserves s).2.2.2.2.2.2.2.2]
      exact hdim
    have IH := ih (send_chunks s) hdim'
    rw [(send_chunks_geom s).1] at IH
    cases hp : sendChunksPick s with
    | none =>
      have hcand' : connCandidates (send_chunks s) = connCandidates s := by
        rw [connCandidates_send s hdim, hp]
        simp
      have hcand : connCandidates s = [] := (sendChunksPick_none_iff s).mp hp
      have hprune : prunedLoaded (send_chunks s) = prunedLoaded s := by
        rw [prunedLoaded_send s hdim, hp]
        simp
      rw [hcand', hprune] at IH
      have hstep : streamed (n + 1) s = streamed n (send_chunks s) := by
        simp [streamed, hp]
      refine ⟨?_, ?_, ?_, ?_, ?_, ?_⟩
      · rw [hstep]
        have := IH.1
        omega
      · rw [hstep]
        exact IH.2.1
      · rw [hstep]
        exact IH.2.2.1
      · rw [hstep]
        exact IH.2.2.2.1
      · show prunedLoaded (sendN (n + 1) s) = _
        simp only [sendN]
        rw [IH.2.2.2.2.1, hstep]
      · intro hn
        rw [hcand] at hn
        simp at hn
    | some p =>
      have hspec := sendChunksPick_spec s p hp
      have hstep : streamed (n + 1) s = p :: streamed n (send_chunks s) := by
        simp [streamed, hp]
      have hcand' : connCandidates (send_chunks s) =
          (connCandidates s).filter (fun q => !([p].contains q)) := by
        rw [connCandidates_send s hdim, hp]
        rfl
      have hsub : ∀ q ∈ connCandidates (send_chunks s),
          q ∈ connCandidates s ∧ q ≠ p := by
        intro q hq
        rw [hcand'] at hq
        have hmf := List.mem_filter.mp hq
        refine ⟨hmf.1, ?_⟩
        have hb := hmf.2
        rw [contains_singleton] at hb
        intro hqp
        rw [hqp] at hb
        simp at hb
      refine ⟨?_, ?_, ?_, ?_, ?_, ?_⟩
      · rw [hstep]
        simp only [List.length_cons]
        have := IH.1
        omega
      · rw [hstep, List.nodup_cons]
        exact ⟨fun hmem => (hsub p (IH.2.2.1 p hmem)).2 rfl, IH.2.1⟩
      · rw [hstep]
        intro q hq
        rcases List.mem_cons.mp hq with rfl | hqt
        · exact hspec.1
        · exact (hsub q (IH.2.2.1 q hqt)).1
      · rw [hstep, List.chain'_cons']
        refine ⟨?_, IH.2.2.2.1⟩
        intro b hb
        have hbt : b ∈ streamed n (send_chunks s) := List.mem_of_mem_head? hb
        exact hspec.2 b (hsub b (IH.2.2.1 b hbt)).1
      · show prunedLoaded (sendN (n + 1) s) = _
        simp only [sendN]
        rw [IH.2.2.2.2.1, prunedLoaded_send s hdim, hp, hstep,
          Option.toList_some, List.append_assoc]
        rfl
      · intro hn
        rw [hstep]
        simp only [List.length_cons]
        have hnd := connCandidates_nodup s
        have hfilt : (connCandidates s).filter (fun q => !([p].contains q)) =
            (connCandidates s).erase p := by
          rw [hnd.erase_eq_filter p]
          apply List.filter_congr
          intro a _
          rw [contains_singleton]
          rfl
        have hlen' : (connCandidates (send_chunks s)).length =
            (connCandidates s).length - 1 := by
          rw [hcand', hfilt]
          exact List.length_erase_of_mem hspec.1
        have hle : n ≤ (connCandidates (send_chunks s)).length := by omega
        have := IH.2.2.2.2.2 hle
        omega

/-- C5 counterexample: from the fresh state c5s0 (center (0,0)), three
send_chunks calls stream (0,0), (-1,-1), (-1,0) in that order — squared
distances 0, 2, 1.  At the second call the strictly nearer chunk
(-1,0) (squared distance 1) was an unloaded in-window candidate, yet
(-1,-1) (squared distance 2) was streamed first, because
i32::isqrt gives both the key 1 and the stable sort then keeps
enumeration order.  So the streamed chunk is not the nearest by
Euclidean distance and the stream is not ordered by non-decreasing
squared distance. -/
theorem c5_counterexample :
    connCenter c5s0 = (0, 0) ∧
    streamed 3 c5s0 = [(0, 0), (-1, -1), (-1, 0)] ∧
    (sendN 3 c5s0).loaded_chunks = [(0, 0), (-1, -1), (-1, 0)] ∧
    ((-1, 0) : Int × Int) ∈ connCandidates (send_chunks c5s0) ∧
    specSqDist (0, 0) (-1, -1) = 2 ∧
    specSqDist (0, 0) (-1, 0) = 1 ∧
    ¬ (streamed 3 c5s0).Chain'
        (fun a b => specSqDist (connCenter c5s0) a ≤
          specSqDist (connCenter c5s0) b) := by
  refine ⟨by decide, by decide, by decide, by decide, by decide, by decide,
    ?_⟩
  intro h
  have hs : streamed 3 c5s0 = [(0, 0), (-1, -1), (-1, 0)] := by decide
  rw [hs] at h
  have h2 := (List.chain'_cons.mp (List.chain'_cons.mp h).2).1
  have hc : connCenter c5s0 = (0, 0) := by decide
  rw [hc] at h2
  exact absurd h2 (by decide)

/-- C5 witness: the amended theorem instantiated at the fresh state
c5s0 and n = 3. -/
theorem c5_chunk_stream_witness :
    (send_chunks c5s0).loaded_chunks =
        prunedLoaded c5s0 ++ (sendChunksPick c5s0).toList ∧
    (∀ p, sendChunksPick c5s0 = some p →
        p ∈ connCandidates c5s0 ∧
          ∀ q ∈ connCandidates c5s0,
            distKey (connCenter c5s0) p ≤ distKey (connCenter c5s0) q) ∧
    (streamed 3 c5s0).length ≤ 3 ∧
    (streamed 3 c5s0).Nodup ∧
    (∀ q ∈ streamed 3 c5s0, q ∈ connCandidates c5s0) ∧
    (streamed 3 c5s0).Chain'
      (fun a b =>
        distKey (connCenter c5s0) a ≤ distKey (connCenter c5s0) b) ∧
    prunedLoaded (sendN 3 c5s0) = prunedLoaded c5s0 ++ streamed 3 c5s0 ∧
    (3 ≤ (connCandidates c5s0).length → (streamed 3 c5s0).length = 3) :=
  c5_chunk_stream c5s0 3 rfl
